import Mathlib

/-!
Verification development for the `schema-driven-html` repository: a shallow
embedding, in Lean 4, of the repository's interpolation-DSL core — the
expression parser, the path/alias resolver, the JSON-Schema extractor and the
HTML renderer — together with theorems settling the specification claims.

Modelling conventions:
* JavaScript runtime values are embedded as the inductive type `Value`;
  JavaScript numbers are embedded as `JsNum` (an exact rational together with
  the special values `NaN`, `±Infinity` and `-0`); plain JSON data (used for
  schema objects) is embedded as `Json` with rational numbers.
* JavaScript objects / `Record`s are embedded as association lists in
  insertion order; property assignment keeps the position of an existing key
  and appends a fresh key, mirroring JavaScript enumeration order.
* Code that can `throw` is embedded in `Except String`.
* `Array.prototype.sort` (a stable sort by a total comparator, per the
  ECMAScript specification) is embedded as a stable insertion sort;
  `String.prototype.localeCompare` is embedded as code-point string order
  (every key sorted by the repository is ASCII, where the two agree).
-/

namespace SDH

/-! ## Character-list string utilities (kernel-reducible) -/

/-- Split a character list at every occurrence of the separator character,
mirroring JavaScript `String.prototype.split` with a one-character separator. -/
def splitOnChar (c : Char) : List Char → List (List Char)
  | [] => [[]]
  | x :: xs =>
    match splitOnChar c xs with
    | [] => [[x]]
    | r :: rs => if x = c then [] :: r :: rs else (x :: r) :: rs

/-- JavaScript whitespace test (sufficient for the ASCII whitespace the DSL uses). -/
def jsIsSpace (c : Char) : Bool :=
  c = ' ' ∨ c = '\t' ∨ c = '\n' ∨ c = '\r' ∨ c = '\x0b' ∨ c = '\x0c'

/-- Strip leading whitespace from a character list (JavaScript `trimStart`). -/
def dropLeadSpace : List Char → List Char
  | [] => []
  | c :: cs => if jsIsSpace c then dropLeadSpace cs else c :: cs

/-- JavaScript `String.prototype.trim` on character lists. -/
def trimChars (l : List Char) : List Char :=
  (dropLeadSpace (dropLeadSpace l.reverse).reverse)

/-- JavaScript `String.prototype.trim`. -/
def jsTrim (s : String) : String := String.mk (trimChars s.data)

/-- Split a string on a one-character separator. -/
def jsSplitChar (c : Char) (s : String) : List String :=
  (splitOnChar c s.data).map String.mk

/-- Does the character list end with the given suffix? -/
def endsWithChars (l suf : List Char) : Bool := suf.reverse.isPrefixOf l.reverse

/-- JavaScript `String.prototype.endsWith`. -/
def jsEndsWith (s suf : String) : Bool := endsWithChars s.data suf.data

/-- JavaScript `String.prototype.startsWith`. -/
def jsStartsWith (s pre : String) : Bool := pre.data.isPrefixOf s.data

/-- Drop the last `n` characters of a string (used for stripping a `[]` marker). -/
def dropRightStr (s : String) (n : Nat) : String :=
  String.mk (s.data.take (s.data.length - n))

/-- Drop the first `n` characters of a string (used for `String.prototype.slice`
with a constant start, as in the head-level semantic `meta` name parsing). -/
def dropLeftStr (s : String) (n : Nat) : String := String.mk (s.data.drop n)

/-! ## Association lists with JavaScript object-assignment semantics -/

/-- Property read on a JavaScript object modelled as an association list. -/
def assocGet? {α : Type} : List (String × α) → String → Option α
  | [], _ => none
  | (k, v) :: rest, key => if k = key then some v else assocGet? rest key

/-- Property assignment on a JavaScript object: an existing key keeps its
position, a fresh key is appended, mirroring JavaScript enumeration order. -/
def assocSet {α : Type} : List (String × α) → String → α → List (String × α)
  | [], key, v => [(key, v)]
  | (k, w) :: rest, key, v =>
    if k = key then (k, v) :: rest else (k, w) :: assocSet rest key v

/-- `Object.prototype.hasOwnProperty`. -/
def assocHas {α : Type} (l : List (String × α)) (key : String) : Bool :=
  (assocGet? l key).isSome

/-! ## Stable insertion sort (embedding of `Array.prototype.sort`)

`Array.prototype.sort` is specified to be a stable sort by the comparator; a
stable insertion sort is one such sort, so the two agree on every input. -/

/-- Insert an element into a sorted list, after strictly smaller elements and
before equal-or-larger ones (this placement makes the overall sort stable). -/
def insertSorted {α : Type} (le : α → α → Bool) (x : α) : List α → List α
  | [] => [x]
  | y :: ys =>
    if le y x && !(le x y) then y :: insertSorted le x ys else x :: y :: ys

/-- Stable insertion sort by a boolean comparator. -/
def sortByLe {α : Type} (le : α → α → Bool) : List α → List α
  | [] => []
  | x :: xs => insertSorted le x (sortByLe le xs)

/-! ## JavaScript numbers and JSON values -/

/-- JavaScript numbers: an exact rational plus `NaN`, the infinities and `-0`
(`rat 0` is `+0`).  This captures exactly the distinctions the repository's
code observes (finiteness, sign, zero-ness, integer arithmetic); binary
floating-point rounding is not modelled, and no claim depends on it. -/
inductive JsNum where
  | nan
  | posInf
  | negInf
  | negZero
  | rat (q : ℚ)
deriving DecidableEq

/-- JavaScript object-field values (the shape of schema nodes and of extracted
schemas): null, booleans, strings, JavaScript numbers, arrays and objects. -/
inductive Json where
  | null
  | bool (b : Bool)
  | str (s : String)
  | num (n : JsNum)
  | arr (items : List Json)
  | obj (fields : List (String × Json))

/-- Shorthand for a finite rational number value. -/
def jnum (q : ℚ) : Json := .num (.rat q)

mutual

/-- Boolean structural equality on `Json`. -/
def beqJ : Json → Json → Bool
  | .null, .null => true
  | .bool a, .bool b => a == b
  | .str a, .str b => a == b
  | .num a, .num b => a == b
  | .arr a, .arr b => beqL a b
  | .obj a, .obj b => beqF a b
  | _, _ => false

/-- Boolean structural equality on `Json` lists. -/
def beqL : List Json → List Json → Bool
  | [], [] => true
  | x :: xs, y :: ys => beqJ x y && beqL xs ys
  | _, _ => false

/-- Boolean structural equality on `Json` field lists. -/
def beqF : List (String × Json) → List (String × Json) → Bool
  | [], [] => true
  | (k, v) :: xs, (l, w) :: ys => k == l && beqJ v w && beqF xs ys
  | _, _ => false

end

mutual

theorem beqJ_iff : ∀ a b : Json, beqJ a b = true ↔ a = b
  | .null, b => by cases b <;> simp [beqJ]
  | .bool x, b => by cases b <;> simp [beqJ]
  | .str s, b => by cases b <;> simp [beqJ]
  | .num q, b => by cases b <;> simp [beqJ]
  | .arr xs, b => by cases b <;> simp [beqJ] <;> exact beqL_iff xs _
  | .obj fs, b => by cases b <;> simp [beqJ] <;> exact beqF_iff fs _

theorem beqL_iff : ∀ a b : List Json, beqL a b = true ↔ a = b
  | [], b => by cases b <;> simp [beqL]
  | x :: xs, b => by
      cases b with
      | nil => simp [beqL]
      | cons y ys => simp [beqL, beqJ_iff x y, beqL_iff xs ys]

theorem beqF_iff : ∀ a b : List (String × Json), beqF a b = true ↔ a = b
  | [], b => by cases b <;> simp [beqF]
  | (k, v) :: xs, b => by
      cases b with
      | nil => simp [beqF]
      | cons p ys =>
          obtain ⟨l, w⟩ := p
          simp [beqF, beqJ_iff v w, beqF_iff xs ys]

end

instance : DecidableEq Json := fun a b => decidable_of_iff (beqJ a b = true) (beqJ_iff a b)

/-- A schema node: a JavaScript object, as an association list of fields. -/
abbrev JObj := List (String × Json)

instance {ε α : Type} [DecidableEq ε] [DecidableEq α] : DecidableEq (Except ε α) := fun a b =>
  match a, b with
  | .ok x, .ok y =>
    if h : x = y then isTrue (by rw [h]) else isFalse (by simp [h])
  | .ok _, .error _ => isFalse (by simp)
  | .error _, .ok _ => isFalse (by simp)
  | .error e, .error f =>
    if h : e = f then isTrue (by rw [h]) else isFalse (by simp [h])

/-! ## The DSL data model (`types.ts`) -/

/-- The closed set of interpolation data types. -/
inductive DataType where
  | string | integer | number | boolean | date | time | datetime
deriving DecidableEq

/-- The `dataType` name as written in templates and schemas. -/
def DataType.name : DataType → String
  | .string => "string" | .integer => "integer" | .number => "number"
  | .boolean => "boolean" | .date => "date" | .time => "time" | .datetime => "datetime"

/-- A parsed constraint (tagged variant, `types.ts`). Enum and fixed values are
string / number / boolean literals, embedded as `Json`; numeric constraint
values are JavaScript numbers (a malformed literal parses to `NaN`). -/
inductive Constraint where
  | enum (values : List Json)
  | min (value : JsNum)
  | max (value : JsNum)
  | exMin (value : JsNum)
  | exMax (value : JsNum)
  | step (value : JsNum)
  | pattern (value : String)
  | fixed (value : Json)
  | minLength (value : JsNum)
  | maxLength (value : JsNum)
deriving DecidableEq

/-- A parsed filter: name plus ordered string arguments. -/
structure Filter where
  name : String
  args : List String
deriving DecidableEq

/-- A parsed interpolation segment. -/
structure InterpolationSegment where
  path : String
  dataType : DataType
  nullable : Bool
  constraints : List Constraint
  filters : List Filter
deriving DecidableEq

/-- A text segment: literal text or an interpolation. -/
inductive TextSegment where
  | literal (value : String)
  | interpolation (seg : InterpolationSegment)
deriving DecidableEq

/-- A sanitized DSL tree node: a text node (list of segments) or an element
with tag name, attribute record and children. -/
inductive DslNode where
  | text (segments : List TextSegment)
  | elem (tagName : String) (attributes : List (String × String)) (children : List DslNode)

/-! ## `dsl-utils.ts` (shared path/alias utilities) -/

/-- `isPlainObject` on plain JSON: a non-null, non-array object. -/
def isPlainObjectJ : Json → Bool
  | .obj _ => true
  | _ => false

/-- Character-list code-point comparison; the embedding of both
`localeCompare`-order and default-`sort` string order (the repository only
sorts ASCII keys, where the two orders agree). -/
def charListLe : List Char → List Char → Bool
  | [], _ => true
  | _ :: _, [] => false
  | a :: as, b :: bs =>
    if a = b then charListLe as bs else decide (a.toNat < b.toNat)

/-- Code-point string order. -/
def strLe (a b : String) : Bool := charListLe a.data b.data

/-- Split a character list at every whitespace character. -/
def splitOnSpace : List Char → List (List Char)
  | [] => [[]]
  | x :: xs =>
    match splitOnSpace xs with
    | [] => [[x]]
    | r :: rs => if jsIsSpace x then [] :: r :: rs else (x :: r) :: rs

/-- Split the string form of an iteration expression into whitespace-delimited
tokens.  The source's regex `^path\s+as\s+alias$` (with whitespace-free `path`
and `alias` character classes) matches exactly when the trimmed expression
consists of three such tokens whose middle token is `as`. -/
def wsTokens (s : String) : List String :=
  ((splitOnSpace (trimChars s.data)).map String.mk).filter (fun t => t ≠ "")

/-- First character of the iteration path / alias character class. -/
def isIdentStart (c : Char) : Bool := c.isAlpha || c = '_' || c = '$'

/-- Does `s` match `[A-Za-z_$][A-Za-z0-9_$.]*` (the iteration source path)? -/
def iterPathOk (s : String) : Bool :=
  match s.data with
  | [] => false
  | c :: cs => isIdentStart c && cs.all (fun ch => isIdentStart ch || ch.isDigit || ch = '.')

/-- Does `s` match `[A-Za-z_$][A-Za-z0-9_$]*` (the iteration alias)? -/
def iterAliasOk (s : String) : Bool :=
  match s.data with
  | [] => false
  | c :: cs => isIdentStart c && cs.all (fun ch => isIdentStart ch || ch.isDigit)

/-- `parseIterationExpression`: parse `"sourcePath as aliasName"`.  The source
matches the trimmed expression against the regex
`^([A-Za-z_$][A-Za-z0-9_$.]*)\s+as\s+([A-Za-z_$][A-Za-z0-9_$]*)$` and throws
on failure; there is no default alias. -/
def parseIterationExpression (expr : String) : Except String (String × String) :=
  match wsTokens expr with
  | [p, mid, a] =>
    if mid = "as" ∧ iterPathOk p ∧ iterAliasOk a then .ok (p, a)
    else .error ("Invalid iteration expression: " ++ expr)
  | _ => .error ("Invalid iteration expression: " ++ expr)

/-- Replace every occurrence of a single character by a replacement string. -/
def replaceCharChars (pat : Char) (rep : List Char) : List Char → List Char
  | [] => []
  | c :: cs =>
    if c = pat then rep ++ replaceCharChars pat rep cs
    else c :: replaceCharChars pat rep cs

/-- One single-character `String.prototype.replaceAll`. -/
def replaceChar (pat : Char) (rep : String) (s : String) : String :=
  String.mk (replaceCharChars pat rep.data s.data)

/-- `escapeHtml`: the four `replaceAll` calls of the source, in order. -/
def escapeHtml (value : String) : String :=
  replaceChar '"' "&quot;" (replaceChar '>' "&gt;" (replaceChar '<' "&lt;"
    (replaceChar '&' "&amp;" value)))

/-- `normalizePath`: split on `.` and drop empty segments. -/
def normalizePath (path : String) : List String :=
  (jsSplitChar '.' path).filter (fun s => s ≠ "")

/-- Join path segments with `.` (`Array.prototype.join(".")`). -/
def joinDot : List String → String
  | [] => ""
  | [x] => x
  | x :: xs => x ++ "." ++ joinDot xs

/-- `resolvePathWithAliases` (static alias resolution): if the first path
segment is bound in the static alias map, replace it wholesale by the bound
path-prefix; otherwise return the path unchanged.  `if (!aliasPath)` in the
source also treats an empty bound string as unbound. -/
def resolvePathWithAliases (path : String) (aliases : List (String × String)) : String :=
  match normalizePath path with
  | [] => path
  | p0 :: rest =>
    match assocGet? aliases p0 with
    | none => path
    | some ap =>
      if ap = "" then path
      else if rest = [] then ap
      else ap ++ "." ++ joinDot rest

/-- `isVoidTag`. -/
def isVoidTag (tagName : String) : Bool :=
  tagName = "br" || tagName = "hr" || tagName = "img" || tagName = "meta"

/-- The renderer's `CONTROL_ATTRIBUTES` set. -/
def CONTROL_ATTRIBUTES : List String :=
  ["data-page", "data-repeat", "data-if", "data-break-before", "data-break-after",
   "data-fixed-rows", "data-max-rows", "data-format", "data-semantic-description",
   "data-semantic-instruction", "data-semantic-examples"]

/-- Global configuration read from head-level `meta` elements. -/
structure GlobalConfig where
  timezone : String
  examplesDelimiter : String
deriving DecidableEq

/-- The default global configuration. -/
def defaultGlobalConfig : GlobalConfig := { timezone := "UTC", examplesDelimiter := ";" }

mutual

/-- `collectGlobalConfig`'s `walkElements` visit of one node: a `meta` element
with a truthy trimmed `name`/`content` updates the configuration. -/
def collectCfgNode : DslNode → GlobalConfig → GlobalConfig
  | .text _, cfg => cfg
  | .elem tag attrs children, cfg =>
    let name := (assocGet? attrs "name").map jsTrim
    let content := jsTrim ((assocGet? attrs "content").getD "")
    let cfg1 :=
      if tag = "meta" ∧ name = some "timezone" ∧ content ≠ "" then
        { cfg with timezone := content } else cfg
    let cfg2 :=
      if tag = "meta" ∧ name = some "semantic:examples-delimiter" ∧ content ≠ "" then
        { cfg1 with examplesDelimiter := content } else cfg1
    collectCfgForest children cfg2

/-- Fold `collectCfgNode` over a child list (document order). -/
def collectCfgForest : List DslNode → GlobalConfig → GlobalConfig
  | [], cfg => cfg
  | n :: rest, cfg => collectCfgForest rest (collectCfgNode n cfg)

end

/-- `collectGlobalConfig`. -/
def collectGlobalConfig (root : DslNode) : GlobalConfig :=
  collectCfgNode root defaultGlobalConfig

/-! ## JavaScript truthiness and string conversion for JSON values -/

/-- JavaScript truthiness of a `JsNum`: `NaN`, `+0` and `-0` are falsy. -/
def jsNumTruthy : JsNum → Bool
  | .nan => false
  | .negZero => false
  | .rat q => q ≠ 0
  | .posInf => true
  | .negInf => true

/-- JavaScript truthiness of an object-field value. -/
def jsonTruthy : Json → Bool
  | .null => false
  | .bool b => b
  | .str s => s ≠ ""
  | .num n => jsNumTruthy n
  | .arr _ => true
  | .obj _ => true

/-- The decimal digit character for `n < 10`. -/
def digitChar (n : Nat) : Char := Char.ofNat (48 + n)

/-- Decimal digits of a natural number (fuel-indexed; the wrapper supplies
sufficient fuel, so the fuel case is never reached). -/
def natDigitsAux : Nat → Nat → List Char
  | 0, _ => []
  | fuel + 1, n => if n < 10 then [digitChar n] else natDigitsAux fuel (n / 10) ++ [digitChar (n % 10)]

/-- Decimal string of a natural number. -/
def natToStr (n : Nat) : String := String.mk (natDigitsAux (n + 1) n)

/-- Decimal string of an integer. -/
def intToStr (i : Int) : String :=
  if i < 0 then "-" ++ natToStr i.natAbs else natToStr i.natAbs

/-- Decimal digits after the point for `rem / den`, by long division (at most
`fuel` digits; JavaScript prints the shortest round-trip decimal of a binary
float, which this exact-rational model approximates to 20 digits). -/
def fracDigitsAux : Nat → Nat → Nat → List Char
  | 0, _, _ => []
  | fuel + 1, rem, den =>
    if rem = 0 then []
    else digitChar (rem * 10 / den) :: fracDigitsAux fuel (rem * 10 % den) den

/-- Decimal string of a rational (exact for integers). -/
def ratToString (q : ℚ) : String :=
  if q.den = 1 then intToStr q.num
  else
    (if q < 0 then "-" else "") ++ natToStr (q.num.natAbs / q.den) ++ "." ++
      String.mk (fracDigitsAux 20 (q.num.natAbs % q.den) q.den)

/-- JavaScript `String()` of a number. -/
def jsNumToString : JsNum → String
  | .nan => "NaN"
  | .posInf => "Infinity"
  | .negInf => "-Infinity"
  | .negZero => "0"
  | .rat q => ratToString q

/-- Join strings with `,` (`Array.prototype.join` with the default separator). -/
def joinComma : List String → String
  | [] => ""
  | [x] => x
  | x :: xs => x ++ "," ++ joinComma xs

mutual

/-- JavaScript `String()` of an object-field value. -/
def jsonToString : Json → String
  | .null => "null"
  | .bool b => if b then "true" else "false"
  | .str s => s
  | .num n => jsNumToString n
  | .arr xs => joinComma (jsonArrToStrings xs)
  | .obj _ => "[object Object]"

/-- Element strings for `Array.prototype.toString` (null elements join as empty). -/
def jsonArrToStrings : List Json → List String
  | [] => []
  | x :: xs => (match x with | .null => "" | _ => jsonToString x) :: jsonArrToStrings xs

end

/-! ## `stableSortObject` -/

mutual

/-- Nesting depth of a JSON value (a fuel bound for `stableSortObject`). -/
def jsonDepth : Json → Nat
  | .arr xs => 1 + jsonDepthL xs
  | .obj fs => 1 + jsonDepthF fs
  | _ => 0

/-- Maximal depth over a list. -/
def jsonDepthL : List Json → Nat
  | [] => 0
  | x :: xs => max (jsonDepth x) (jsonDepthL xs)

/-- Maximal depth over a field list. -/
def jsonDepthF : List (String × Json) → Nat
  | [] => 0
  | (_, v) :: fs => max (jsonDepth v) (jsonDepthF fs)

end

/-- The `required`-list comparator: `Array.prototype.sort()` with no comparator
compares the `String()` forms in code-unit order. -/
def sortReqLe (a b : Json) : Bool := strLe (jsonToString a) (jsonToString b)

/-- The object-entry comparator: `([a], [b]) => a.localeCompare(b)` on keys. -/
def keyLe (a b : String × Json) : Bool := strLe a.1 b.1

/-- `stableSortObject`, fuel-indexed on nesting depth (the wrapper supplies
sufficient fuel): sort object entries by key, then per entry either take a
sorted copy of a `required` array or recurse; map over arrays. -/
def stableSortFuel : Nat → Json → Json
  | 0, v => v
  | fuel + 1, v =>
    match v with
    | .arr xs => .arr (xs.map (stableSortFuel fuel))
    | .obj fields =>
      .obj ((sortByLe keyLe fields).map (fun kv =>
        match kv with
        | (k, nested) =>
          if k = "required" then
            match nested with
            | .arr items => (k, Json.arr (sortByLe sortReqLe items))
            | _ => (k, stableSortFuel fuel nested)
          else (k, stableSortFuel fuel nested)))
    | other => other

/-- `stableSortObject`. -/
def stableSortObject (value : Json) : Json := stableSortFuel (jsonDepth value + 1) value

/-! ## `schema-extractor.ts` -/

/-- Semantic metadata (description / instruction / examples), each field
optional, mirroring the `InlineSemantic` interface. -/
structure InlineSemantic where
  description : Option String
  instruction : Option String
  examples : Option (List String)
deriving DecidableEq

/-- The static traversal context: path-prefix aliases plus the inherited
inline semantic annotation. -/
structure TraverseContext where
  aliases : List (String × String)
  inlineSemantic : Option InlineSemantic

/-- Head-level semantic metadata keyed by declared path. -/
abbrev MetaSemanticMap := List (String × InlineSemantic)

/-- Options of `extractSchemaFromAst`. -/
structure ExtractSchemaOptions where
  examplesDelimiter : Option String := none

/-- The fresh object-typed item schema the extractor creates. -/
def emptyObjSchema : Json :=
  .obj [("type", .str "object"), ("properties", .obj []), ("required", .arr [])]

/-- The fresh array-node fields the extractor creates. -/
def defaultArrayFields : JObj := [("type", .str "array"), ("items", emptyObjSchema)]

/-- The fields of an object value (property reads on non-objects yield nothing;
the extractor never stores non-objects where it later reads fields). -/
def fieldsOf : Json → JObj
  | .obj fs => fs
  | _ => []

/-- `ensureObjectProperties`, read side: the `properties` record, or empty when
missing or not an object. -/
def getProps (node : JObj) : JObj :=
  match assocGet? node "properties" with
  | some (Json.obj fs) => fs
  | _ => []

/-- `ensureObjectProperties`, write side: normalize `properties` to an object. -/
def ensureProps (node : JObj) : JObj :=
  assocSet node "properties" (.obj (getProps node))

/-- `pushRequired`: normalize `required` to an array, then append the key if
it is not already a member. -/
def pushRequired (node : JObj) (key : String) : JObj :=
  let req : List Json := match assocGet? node "required" with | some (Json.arr xs) => xs | _ => []
  if Json.str key ∈ req then assocSet node "required" (.arr req)
  else assocSet node "required" (.arr (req ++ [Json.str key]))

/-- Split one path part into its key and whether it carries an `[]` marker. -/
def splitPart (part : String) : String × Bool :=
  if jsEndsWith part "[]" then (dropRightStr part 2, true) else (part, false)

/-- JavaScript object spread `\x7b...a, ...b\x7d`: keys of `a` in order with
values overridden by `b`, then fresh keys of `b` appended. -/
def objMerge (a b : JObj) : JObj :=
  b.foldl (fun acc kv => assocSet acc kv.1 kv.2) a

/-- `ensurePathNode`: walk the parts of a normalized path, creating or reusing
array/object nodes at intermediate parts (always marking them required) and
merging the leaf schema at the last part (marking it required only when
`required` is set). -/
def ensurePathNode (node : JObj) : List String → JObj → Bool → JObj
  | [], _, _ => node
  | part :: rest, leafSchema, required =>
    let pk := splitPart part
    let key := pk.1
    let isArray := pk.2
    let node1 := ensureProps node
    let props := getProps node1
    if rest.isEmpty then
      let existing : JObj := match assocGet? props key with | some (Json.obj fs) => fs | _ => []
      let node2 := assocSet node1 "properties" (.obj (assocSet props key (.obj (objMerge existing leafSchema))))
      if required then pushRequired node2 key else node2
    else if isArray then
      let arrNode : JObj :=
        match assocGet? props key with | some (Json.obj fs) => fs | _ => defaultArrayFields
      let arrNode1 :=
        match assocGet? arrNode "items" with
        | some it => if jsonTruthy it then arrNode else assocSet arrNode "items" emptyObjSchema
        | none => assocSet arrNode "items" emptyObjSchema
      let itemsFields : JObj :=
        match assocGet? arrNode1 "items" with | some (Json.obj fs) => fs | _ => []
      let newItems := ensurePathNode itemsFields rest leafSchema required
      let arrNode2 := assocSet arrNode1 "items" (.obj newItems)
      let node2 := assocSet node1 "properties" (.obj (assocSet props key (.obj arrNode2)))
      pushRequired node2 key
    else
      let objNode : JObj :=
        match assocGet? props key with | some (Json.obj fs) => fs | _ => fieldsOf emptyObjSchema
      let newChild := ensurePathNode objNode rest leafSchema required
      let node2 := assocSet node1 "properties" (.obj (assocSet props key (.obj newChild)))
      pushRequired node2 key

/-- `mapTypeToSchema`: base type (date-like types map to `string`), a
`[base, "null"]` union when nullable, plus a `format` for date-like types. -/
def mapTypeToSchema (dataType : DataType) (nullable : Bool) : JObj :=
  let baseType :=
    match dataType with
    | .date => "string" | .time => "string" | .datetime => "string"
    | d => d.name
  let node : JObj :=
    [("type", if nullable then Json.arr [.str baseType, .str "null"] else .str baseType)]
  let node1 := if dataType = .date then assocSet node "format" (.str "date") else node
  let node2 := if dataType = .time then assocSet node1 "format" (.str "time") else node1
  if dataType = .datetime then assocSet node2 "format" (.str "date-time") else node2

/-- One `buildFieldSchema` switch case: the schema keyword for a constraint. -/
def constraintApply (node : JObj) : Constraint → JObj
  | .enum vs => assocSet node "enum" (.arr vs)
  | .min v => assocSet node "minimum" (.num v)
  | .max v => assocSet node "maximum" (.num v)
  | .exMin v => assocSet node "exclusiveMinimum" (.num v)
  | .exMax v => assocSet node "exclusiveMaximum" (.num v)
  | .step v => assocSet node "multipleOf" (.num v)
  | .pattern v => assocSet node "pattern" (.str v)
  | .fixed v => assocSet node "const" v
  | .minLength v => assocSet node "minLength" (.num v)
  | .maxLength v => assocSet node "maxLength" (.num v)

/-- `buildFieldSchema`. -/
def buildFieldSchema (dataType : DataType) (nullable : Bool) (constraints : List Constraint) : JObj :=
  constraints.foldl constraintApply (mapTypeToSchema dataType nullable)

/-- `applyInterpolationSchema`: merge the interpolation's leaf schema at the
resolved path, required exactly when not nullable. -/
def applyInterpolationSchema (schema : JObj) (path : String) (seg : InterpolationSegment) : JObj :=
  ensurePathNode schema (normalizePath path)
    (buildFieldSchema seg.dataType seg.nullable seg.constraints) (!seg.nullable)

/-- `ensureArrayPath`: merge an array node (with an object item schema) at the
path. -/
def ensureArrayPath (schema : JObj) (path : String) (required : Bool) : JObj :=
  ensurePathNode schema (normalizePath path) defaultArrayFields required

/-- `getFieldSchema`'s loop over normalized path parts. -/
def getFieldSchemaParts : JObj → List String → Option Json
  | _, [] => none
  | cur, part :: rest =>
    let pk := splitPart part
    let key := pk.1
    let isArray := pk.2
    match assocGet? cur "properties" with
    | some (.obj fs) =>
      (match assocGet? fs key with
       | some next =>
         if jsonTruthy next = false then none
         else if rest.isEmpty then some next
         else if isArray then
           getFieldSchemaParts
             (match assocGet? (fieldsOf next) "items" with | some (Json.obj its) => its | _ => []) rest
         else getFieldSchemaParts (fieldsOf next) rest
       | none => none)
    | _ => none

/-- `getFieldSchema`. -/
def getFieldSchema (schema : JObj) (path : String) : Option Json :=
  getFieldSchemaParts schema (normalizePath path)

/-- The functional rendering of mutating, in place, the node that
`getFieldSchema` returns: rebuild the schema with the found node replaced.
When the navigation fails the schema is returned unchanged (the source guards
the mutation behind a successful `getFieldSchema`). -/
def modifyFieldSchemaParts (cur : JObj) : List String → (JObj → JObj) → JObj
  | [], _ => cur
  | part :: rest, f =>
    let pk := splitPart part
    let key := pk.1
    let isArray := pk.2
    match assocGet? cur "properties" with
    | some (.obj fs) =>
      (match assocGet? fs key with
       | some next =>
         if jsonTruthy next = false then cur
         else if rest.isEmpty then
           match next with
           | .obj nf => assocSet cur "properties" (.obj (assocSet fs key (.obj (f nf))))
           | _ => cur
         else if isArray then
           match assocGet? (fieldsOf next) "items" with
           | some (Json.obj its) =>
             assocSet cur "properties" (.obj (assocSet fs key
               (.obj (assocSet (fieldsOf next) "items" (.obj (modifyFieldSchemaParts its rest f))))))
           | _ => cur
         else
           match next with
           | .obj nf =>
             assocSet cur "properties" (.obj (assocSet fs key (.obj (modifyFieldSchemaParts nf rest f))))
           | _ => cur
       | none => cur)
    | _ => cur

/-- `applySemantic`: overlay truthy description / instruction / examples onto
a field schema. -/
def applySemantic (target : JObj) (semantic : Option InlineSemantic) : JObj :=
  match semantic with
  | none => target
  | some s =>
    let t1 :=
      match s.description with
      | some d => if d ≠ "" then assocSet target "description" (.str d) else target
      | none => target
    let t2 :=
      match s.instruction with
      | some i => if i ≠ "" then assocSet t1 "x-instruction" (.str i) else t1
      | none => t1
    match s.examples with
    | some xs => if xs.length > 0 then assocSet t2 "examples" (.arr (xs.map .str)) else t2
    | none => t2

/-- Split a string on a (non-empty) delimiter string, fuel-indexed (the
wrapper supplies sufficient fuel). -/
def splitOnStrChars (d : List Char) : Nat → List Char → List (List Char)
  | 0, l => [l]
  | _ + 1, [] => [[]]
  | fuel + 1, c :: cs =>
    if d.isPrefixOf (c :: cs) then [] :: splitOnStrChars d fuel ((c :: cs).drop d.length)
    else
      match splitOnStrChars d (fuel + 1) cs with
      | [] => [[c]]
      | r :: rs => (c :: r) :: rs

/-- JavaScript `String.prototype.split` with a string delimiter. -/
def jsSplitStr (d s : String) : List String :=
  if d = "" then s.data.map (fun c => String.mk [c])
  else (splitOnStrChars d.data (s.data.length + 1) s.data).map String.mk

/-- `splitExamples`: split on the delimiter, trim entries, drop empties. -/
def splitExamples (raw delimiter : String) : List String :=
  ((jsSplitStr delimiter raw).map jsTrim).filter (fun s => s ≠ "")

/-- `buildInlineSemantic`: inline `data-semantic-*` attributes override the
inherited annotation; with no truthy inline attribute the inherited one is
kept (note `description ?? inherited` is nullish coalescing, while
`examplesRaw ? ... : inherited` is a truthiness test, as in the source). -/
def buildInlineSemantic (attrs : List (String × String)) (inherited : Option InlineSemantic)
    (delimiter : String) : Option InlineSemantic :=
  let dsc := assocGet? attrs "data-semantic-description"
  let ins := assocGet? attrs "data-semantic-instruction"
  let exR := assocGet? attrs "data-semantic-examples"
  let truthy : Option String → Bool := fun o => match o with | some s => s ≠ "" | none => false
  if ¬(truthy dsc ∨ truthy ins ∨ truthy exR) then inherited
  else some {
    description := match dsc with | some s => some s | none => inherited.bind (·.description)
    instruction := match ins with | some s => some s | none => inherited.bind (·.instruction)
    examples :=
      match exR with
      | some s => if s ≠ "" then some (splitExamples s delimiter) else inherited.bind (·.examples)
      | none => inherited.bind (·.examples) }

/-- One `collectMetaSemantics` map update. -/
def metaUpdate (m : MetaSemanticMap) (path : String) (f : InlineSemantic → InlineSemantic) :
    MetaSemanticMap :=
  assocSet m path (f ((assocGet? m path).getD ⟨none, none, none⟩))

/-- `collectMetaSemantics`' breadth-first queue walk, fuel-indexed by the
number of elements ever enqueued (the wrapper supplies sufficient fuel). -/
def collectMetaAux : Nat → List DslNode → MetaSemanticMap → String → MetaSemanticMap
  | 0, _, m, _ => m
  | _ + 1, [], m, _ => m
  | fuel + 1, n :: rest, m, delim =>
    match n with
    | .text _ => collectMetaAux fuel rest m delim
    | .elem tag attrs children =>
      let name := (assocGet? attrs "name").getD ""
      let content := (assocGet? attrs "content").getD ""
      let m2 :=
        if tag = "meta" then
          if jsStartsWith name "semantic-description:" then
            metaUpdate m (dropLeftStr name ("semantic-description:").length)
              (fun old => { old with description := some content })
          else if jsStartsWith name "semantic-instruction:" then
            metaUpdate m (dropLeftStr name ("semantic-instruction:").length)
              (fun old => { old with instruction := some content })
          else if jsStartsWith name "semantic-examples:" then
            metaUpdate m (dropLeftStr name ("semantic-examples:").length)
              (fun old => { old with examples := some (splitExamples content delim) })
          else m
        else m
      let elemChildren := children.filter (fun c => match c with | .elem _ _ _ => true | _ => false)
      collectMetaAux fuel (rest ++ elemChildren) m2 delim

mutual

/-- Total node count of a tree (a fuel bound for the breadth-first walk). -/
def nodeCount : DslNode → Nat
  | .text _ => 1
  | .elem _ _ children => 1 + forestCount children

/-- Total node count of a child list. -/
def forestCount : List DslNode → Nat
  | [] => 0
  | n :: rest => nodeCount n + forestCount rest

end

/-- `collectMetaSemantics`. -/
def collectMetaSemantics (root : DslNode) (delimiter : String) : MetaSemanticMap :=
  collectMetaAux (nodeCount root + 1) [root] [] delimiter

/-- `walkNode`'s per-interpolation work: merge the leaf schema at the resolved
path, then (when the field schema is found) attach head-level and inline
semantic metadata to it, in that order. -/
def applySegment (schema : JObj) (ctx : TraverseContext) (metaS : MetaSemanticMap) :
    TextSegment → JObj
  | .literal _ => schema
  | .interpolation seg =>
    let resolvedPath := resolvePathWithAliases seg.path ctx.aliases
    let s1 := applyInterpolationSchema schema resolvedPath seg
    match getFieldSchema s1 resolvedPath with
    | none => s1
    | some _ =>
      modifyFieldSchemaParts s1 (normalizePath resolvedPath)
        (fun nf => applySemantic (applySemantic nf (assocGet? metaS resolvedPath)) ctx.inlineSemantic)

/-- `walkNode`'s handling of one iteration attribute (`data-page` or
`data-repeat`): parse the expression (a parse failure throws), resolve the
source path, ensure a required array node there, and bind the alias to the
`path[]` prefix. -/
def iterStep (attrs : List (String × String)) (attrName : String) (schema : JObj)
    (aliases : List (String × String)) : Except String (JObj × List (String × String)) :=
  match assocGet? attrs attrName with
  | some expr =>
    if expr ≠ "" then
      match parseIterationExpression expr with
      | .error e => .error e
      | .ok pa =>
        let path := resolvePathWithAliases pa.1 aliases
        .ok (ensureArrayPath schema path true, assocSet aliases pa.2 (path ++ "[]"))
    else .ok (schema, aliases)
  | none => .ok (schema, aliases)

mutual

/-- `walkNode`: text nodes merge their interpolations; `meta` elements are
skipped; other elements process `data-page`, `data-repeat` and `data-if`
(the conditional registers a required boolean leaf), then walk the children
under the extended context. -/
def walkNode (node : DslNode) (schema : JObj) (ctx : TraverseContext)
    (metaS : MetaSemanticMap) (delim : String) : Except String JObj :=
  match node with
  | .text segments => .ok (segments.foldl (fun s seg => applySegment s ctx metaS seg) schema)
  | .elem tag attrs children =>
    if tag = "meta" then .ok schema
    else
      let inline2 := buildInlineSemantic attrs ctx.inlineSemantic delim
      match iterStep attrs "data-page" schema ctx.aliases with
      | .error e => .error e
      | .ok sa1 =>
        match iterStep attrs "data-repeat" sa1.1 sa1.2 with
        | .error e => .error e
        | .ok sa2 =>
          let s3 :=
            match assocGet? attrs "data-if" with
            | some cond =>
              if cond ≠ "" then
                let conditionPath := resolvePathWithAliases cond sa2.2
                applyInterpolationSchema sa2.1 conditionPath
                  { path := conditionPath, dataType := .boolean, nullable := false,
                    constraints := [], filters := [] }
              else sa2.1
            | none => sa2.1
          walkForest children s3 { aliases := sa2.2, inlineSemantic := inline2 } metaS delim

/-- Walk a child list left to right, threading the schema. -/
def walkForest (nodes : List DslNode) (schema : JObj) (ctx : TraverseContext)
    (metaS : MetaSemanticMap) (delim : String) : Except String JObj :=
  match nodes with
  | [] => .ok schema
  | n :: rest =>
    match walkNode n schema ctx metaS delim with
    | .error e => .error e
    | .ok s2 => walkForest rest s2 ctx metaS delim

end

/-- The initial extracted-schema skeleton. -/
def initialSchema : JObj :=
  [("$schema", .str "https://json-schema.org/draft/2020-12/schema"),
   ("type", .str "object"), ("properties", .obj []), ("required", .arr [])]

/-- `extractSchemaFromAst`: collect the global configuration and head-level
semantics, walk the tree from an empty context, and return the stably
deep-sorted schema. -/
def extractSchemaFromAst (root : DslNode) (options : ExtractSchemaOptions := {}) :
    Except String Json :=
  let globalConfig := collectGlobalConfig root
  let examplesDelimiter := options.examplesDelimiter.getD globalConfig.examplesDelimiter
  let metaSemantics := collectMetaSemantics root examplesDelimiter
  match walkNode root initialSchema { aliases := [], inlineSemantic := none }
      metaSemantics examplesDelimiter with
  | .error e => .error e
  | .ok s => .ok (stableSortObject (.obj s))

/-! ## Runtime values (`renderer.ts` / `filters.ts` side) -/

/-- JavaScript runtime values handled by the renderer: `undefined`, `null`,
booleans, numbers, strings, arrays and plain objects. -/
inductive Value where
  | undef
  | null
  | bool (b : Bool)
  | num (n : JsNum)
  | str (s : String)
  | arr (items : List Value)
  | obj (fields : List (String × Value))

mutual

/-- Boolean structural equality on `Value`. -/
def beqV : Value → Value → Bool
  | .undef, .undef => true
  | .null, .null => true
  | .bool a, .bool b => a == b
  | .num a, .num b => a == b
  | .str a, .str b => a == b
  | .arr a, .arr b => beqVL a b
  | .obj a, .obj b => beqVF a b
  | _, _ => false

/-- Boolean structural equality on `Value` lists. -/
def beqVL : List Value → List Value → Bool
  | [], [] => true
  | x :: xs, y :: ys => beqV x y && beqVL xs ys
  | _, _ => false

/-- Boolean structural equality on `Value` field lists. -/
def beqVF : List (String × Value) → List (String × Value) → Bool
  | [], [] => true
  | (k, v) :: xs, (l, w) :: ys => k == l && beqV v w && beqVF xs ys
  | _, _ => false

end

mutual

theorem beqV_iff : ∀ a b : Value, beqV a b = true ↔ a = b
  | .undef, b => by cases b <;> simp [beqV]
  | .null, b => by cases b <;> simp [beqV]
  | .bool x, b => by cases b <;> simp [beqV]
  | .num q, b => by cases b <;> simp [beqV]
  | .str s, b => by cases b <;> simp [beqV]
  | .arr xs, b => by cases b <;> simp [beqV]; exact beqVL_iff xs _
  | .obj fs, b => by cases b <;> simp [beqV]; exact beqVF_iff fs _

theorem beqVL_iff : ∀ a b : List Value, beqVL a b = true ↔ a = b
  | [], b => by cases b <;> simp [beqVL]
  | x :: xs, b => by
      cases b with
      | nil => simp [beqVL]
      | cons y ys => simp [beqVL, beqV_iff x y, beqVL_iff xs ys]

theorem beqVF_iff : ∀ a b : List (String × Value), beqVF a b = true ↔ a = b
  | [], b => by cases b <;> simp [beqVF]
  | (k, v) :: xs, b => by
      cases b with
      | nil => simp [beqVF]
      | cons p ys =>
          obtain ⟨l, w⟩ := p
          simp [beqVF, beqV_iff v w, beqVF_iff xs ys]

end

instance : DecidableEq Value := fun a b => decidable_of_iff (beqV a b = true) (beqV_iff a b)

/-- `value == null` (loose equality against null): true exactly for `null`
and `undefined`. -/
def isNullish : Value → Bool
  | .undef => true
  | .null => true
  | _ => false

/-- JavaScript `ToBoolean` on runtime values: the falsy set is exactly
`false`, `0`, `-0`, `NaN`, the empty string, `null` and `undefined`. -/
def jsTruthyV : Value → Bool
  | .undef => false
  | .null => false
  | .bool b => b
  | .num n => jsNumTruthy n
  | .str s => s ≠ ""
  | .arr _ => true
  | .obj _ => true

/-- `isPlainObject` on runtime values. -/
def isPlainObjectV : Value → Bool
  | .obj _ => true
  | _ => false

/-- Join strings with an arbitrary separator. -/
def joinSep (sep : String) : List String → String
  | [] => ""
  | [x] => x
  | x :: xs => x ++ sep ++ joinSep sep xs

mutual

/-- JavaScript `String()` on runtime values. -/
def jsToString : Value → String
  | .undef => "undefined"
  | .null => "null"
  | .bool b => if b then "true" else "false"
  | .num n => jsNumToString n
  | .str s => s
  | .arr xs => joinComma (jsArrToStrings xs)
  | .obj _ => "[object Object]"

/-- Element strings for `Array.prototype.toString` (null and undefined
elements join as empty). -/
def jsArrToStrings : List Value → List String
  | [] => []
  | x :: xs =>
    (match x with | .null => "" | .undef => "" | _ => jsToString x) :: jsArrToStrings xs

end

/-- Value of a run of decimal digits. -/
def digitsToNat (ds : List Char) : Nat :=
  ds.foldl (fun a c => a * 10 + (c.toNat - 48)) 0

/-- Parse the numeric-literal body `digits[.digits][eE[+-]digits]` (or
`.digits...`); returns the value or `NaN` for a malformed body.  Hexadecimal
and other exotic `Number()` forms do not occur in this repository's inputs. -/
def parseDecimalBody (sgn : Int) (l : List Char) : JsNum :=
  let intPart := l.takeWhile Char.isDigit
  let rest1 := l.drop intPart.length
  let fracPart :=
    match rest1 with
    | '.' :: r => r.takeWhile Char.isDigit
    | _ => []
  let rest2 :=
    match rest1 with
    | '.' :: r => r.drop fracPart.length
    | _ => rest1
  let expOk_expVal : Bool × Int :=
    match rest2 with
    | [] => (true, 0)
    | 'e' :: r =>
      (match r with
       | '-' :: ds => (!ds.isEmpty && ds.all Char.isDigit, -(digitsToNat ds : Int))
       | '+' :: ds => (!ds.isEmpty && ds.all Char.isDigit, (digitsToNat ds : Int))
       | ds => (!ds.isEmpty && ds.all Char.isDigit, (digitsToNat ds : Int)))
    | 'E' :: r =>
      (match r with
       | '-' :: ds => (!ds.isEmpty && ds.all Char.isDigit, -(digitsToNat ds : Int))
       | '+' :: ds => (!ds.isEmpty && ds.all Char.isDigit, (digitsToNat ds : Int))
       | ds => (!ds.isEmpty && ds.all Char.isDigit, (digitsToNat ds : Int)))
    | _ => (false, 0)
  if intPart = [] ∧ fracPart = [] then .nan
  else if ¬ expOk_expVal.1 then .nan
  else
    let mant : ℚ := (digitsToNat intPart : ℚ) +
      (digitsToNat fracPart : ℚ) / ((10 : ℚ) ^ fracPart.length)
    let v : ℚ := (sgn : ℚ) * mant * (10 : ℚ) ^ expOk_expVal.2
    if v = 0 ∧ sgn < 0 then .negZero else .rat v

/-- JavaScript `Number()` on a string: trim; empty is `0`; `Infinity` forms;
otherwise the decimal literal or `NaN`. -/
def parseNumStr (s : String) : JsNum :=
  let t := trimChars s.data
  if t = [] then .rat 0
  else if t = "Infinity".data ∨ t = "+Infinity".data then .posInf
  else if t = "-Infinity".data then .negInf
  else
    match t with
    | '-' :: r => parseDecimalBody (-1) r
    | '+' :: r => parseDecimalBody 1 r
    | r => parseDecimalBody 1 r

/-- JavaScript `Number()` on runtime values (objects and arrays convert via
their string form). -/
def jsToNumber : Value → JsNum
  | .num n => n
  | .undef => .nan
  | .null => .rat 0
  | .bool b => .rat (if b then 1 else 0)
  | v => parseNumStr (jsToString v)

/-- JavaScript `parseInt(s, 10)`: trim leading whitespace, optional sign,
leading decimal digits (`NaN` when there are none; `-0` for a negative zero). -/
def jsParseInt (s : String) : JsNum :=
  let cs := dropLeadSpace s.data
  let sgn_rest : Int × List Char :=
    match cs with
    | '-' :: r => (-1, r)
    | '+' :: r => (1, r)
    | r => (1, r)
  let ds := sgn_rest.2.takeWhile Char.isDigit
  if ds = [] then .nan
  else if sgn_rest.1 < 0 ∧ digitsToNat ds = 0 then .negZero
  else .rat (sgn_rest.1 * (digitsToNat ds : Int))

/-- Is the number finite (`Number.isFinite`)? -/
def jsIsFinite : JsNum → Bool
  | .rat _ => true
  | .negZero => true
  | _ => false

/-! ## `filters.ts` -/

/-- The filter-application context. -/
structure FilterContext where
  dataType : Option DataType := none
  timezone : Option String := none

/-- `value ?? ""` then `String(...)`: the string form the string-family
filters operate on. -/
def strOfNullable (v : Value) : String :=
  if isNullish v then "" else jsToString v

/-- General `String.prototype.replaceAll`, fuel-indexed (the wrapper supplies
sufficient fuel; each step consumes at least one character). -/
def replaceAllFuel (pat rep : List Char) : Nat → List Char → List Char
  | 0, l => l
  | _ + 1, [] => []
  | fuel + 1, c :: cs =>
    if pat.isPrefixOf (c :: cs) then rep ++ replaceAllFuel pat rep fuel ((c :: cs).drop pat.length)
    else c :: replaceAllFuel pat rep fuel cs

/-- JavaScript `String.prototype.replaceAll` (an empty pattern interleaves the
replacement around every character). -/
def jsReplaceAll (s pat rep : String) : String :=
  if pat = "" then String.mk (rep.data ++ s.data.flatMap (fun c => c :: rep.data))
  else String.mk (replaceAllFuel pat.data rep.data (s.data.length + 1) s.data)

/-- `ToLength`-style conversion of a pad width. -/
def toLengthNat : JsNum → Nat
  | .rat q => if q ≤ 0 then 0 else q.num.toNat / q.den
  | .posInf => 2 ^ 53 - 1
  | _ => 0

/-- Take `n` characters cycling through `fill` (the repetition of
`padStart`'s pad string). -/
def cycleTake (fill : List Char) : Nat → List Char → List Char
  | 0, _ => []
  | n + 1, [] =>
    (match fill with
     | [] => []
     | f :: fs => f :: cycleTake fill n fs)
  | n + 1, c :: cs => c :: cycleTake fill n cs

/-- JavaScript `String.prototype.padStart`. -/
def jsPadStart (s : String) (target : Nat) (fill : String) : String :=
  if fill = "" ∨ target ≤ s.data.length then s
  else String.mk (cycleTake fill.data (target - s.data.length) fill.data ++ s.data)

/-- Truncation of a rational toward zero (JavaScript integer conversion). -/
def ratTruncZ (q : ℚ) : Int :=
  if q < 0 then -((((-q.num).toNat / q.den : Nat) : Int)) else (((q.num.toNat / q.den : Nat) : Int))

/-- One `String.prototype.slice` index, resolved against the length. -/
def sliceIndex (n : JsNum) (len : Nat) : Nat :=
  match n with
  | .nan => 0
  | .negZero => 0
  | .posInf => len
  | .negInf => 0
  | .rat q =>
    let t := ratTruncZ q
    if t < 0 then ((len : Int) + t).toNat else Nat.min t.toNat len

/-- JavaScript `String.prototype.slice` with two indices. -/
def jsSlice (s : String) (start finish : JsNum) : String :=
  let from0 := sliceIndex start s.data.length
  let to0 := sliceIndex finish s.data.length
  String.mk ((s.data.take to0).drop from0)

/-- `toZenkaku`: shift ASCII `!`..`~` into the full-width block. -/
def toZenkaku (s : String) : String :=
  String.mk (s.data.map (fun c =>
    if 0x21 ≤ c.toNat ∧ c.toNat ≤ 0x7e then Char.ofNat (c.toNat + 0xfee0) else c))

/-- `toHankaku`: shift full-width `！`..`～` back into ASCII. -/
def toHankaku (s : String) : String :=
  String.mk (s.data.map (fun c =>
    if 0xff01 ≤ c.toNat ∧ c.toNat ≤ 0xff5e then Char.ofNat (c.toNat - 0xfee0) else c))

/-- Insert `,` before every further group of three digits, scanning the
reversed digit list. -/
def groupDigitsAux : List Char → Nat → List Char
  | [], _ => []
  | c :: cs, k => if k = 3 then ',' :: c :: groupDigitsAux cs 1 else c :: groupDigitsAux cs (k + 1)

/-- Group integer digits in threes with `,` (the `en-US`
`Intl.NumberFormat` grouping of the `comma` filter). -/
def groupDigits (ds : List Char) : List Char :=
  (groupDigitsAux ds.reverse 0).reverse

/-- The `comma` filter's number formatting (`en-US` grouping, up to 20
fraction digits, exact-rational approximation of the float). -/
def commaFormat : JsNum → String
  | .negZero => "-0"
  | .rat q =>
    (if q < 0 then "-" else "") ++
      String.mk (groupDigits (natDigitsAux (q.num.natAbs / q.den + 1) (q.num.natAbs / q.den))) ++
      (if q.num.natAbs % q.den = 0 then ""
       else "." ++ String.mk (fracDigitsAux 20 (q.num.natAbs % q.den) q.den))
  | n => jsNumToString n

/-- `Number.prototype.toFixed` digit strings: round `q` to `f` decimals
(ties toward positive infinity, the ECMAScript rule), then print with
exactly `f` fraction digits. -/
def toFixedStr (q : ℚ) (f : Nat) : String :=
  let scaled : Int := Int.floor (q * (10 : ℚ) ^ f + 1 / 2)
  let neg := scaled < 0
  let a := scaled.natAbs
  let base := natDigitsAux (a + 1) a
  let padded := List.replicate (f + 1 - base.length) '0' ++ base
  let digits := padded.length - f
  (if neg then "-" else "") ++ String.mk (padded.take digits) ++
    (if f = 0 then "" else "." ++ String.mk (padded.drop digits))

/-- `ToIntegerOrInfinity` for the `toFixed` digits argument (an integer or
a signal that the RangeError branch is taken). -/
def toFixedDigits : JsNum → Option Nat
  | .nan => some 0
  | .negZero => some 0
  | .posInf => none
  | .negInf => none
  | .rat q =>
    let t := ratTruncZ q
    if t < 0 ∨ 100 < t then none else some t.toNat

/-! ### Date handling (`formatDateValue`) -/

/-- `hasOffset`: does the string end in `Z` (case-insensitive) or an
`±hh:mm` / `±hhmm` offset? -/
def hasOffset (s : String) : Bool :=
  match s.data.reverse with
  | 'Z' :: _ => true
  | 'z' :: _ => true
  | a :: b :: ':' :: c :: d :: sgn :: _ =>
    a.isDigit && b.isDigit && c.isDigit && d.isDigit && (sgn = '+' || sgn = '-')
  | a :: b :: c :: d :: sgn :: _ =>
    a.isDigit && b.isDigit && c.isDigit && d.isDigit && (sgn = '+' || sgn = '-')
  | _ => false

/-- Take exactly `n` decimal digits; return them and the rest. -/
def takeDigits (n : Nat) (l : List Char) : Option (Nat × List Char) :=
  let ds := l.take n
  if ds.length = n ∧ ds.all Char.isDigit then some (digitsToNat ds, l.drop n) else none

/-- Days since 1970-01-01 of a proleptic-Gregorian civil date
(the standard `days_from_civil` algorithm, with floor division). -/
def daysFromCivil (y : Int) (m d : Nat) : Int :=
  let y2 : Int := if m ≤ 2 then y - 1 else y
  let era : Int := Int.fdiv y2 400
  let yoe : Nat := (y2 - era * 400).toNat
  let doy : Nat := (153 * (if m > 2 then m - 3 else m + 9) + 2) / 5 + d - 1
  let doe : Nat := yoe * 365 + yoe / 4 - yoe / 100 + doy
  era * 146097 + (doe : Int) - 719468

/-- Civil date of a days-since-epoch count (the standard `civil_from_days`
algorithm). -/
def civilFromDays (z0 : Int) : Int × Nat × Nat :=
  let z := z0 + 719468
  let era : Int := Int.fdiv z 146097
  let doe : Nat := (z - era * 146097).toNat
  let yoe : Nat := (doe - doe / 1460 + doe / 36524 - doe / 146096) / 365
  let y : Int := (yoe : Int) + era * 400
  let doy : Nat := doe - (365 * yoe + yoe / 4 - yoe / 100)
  let mp : Nat := (5 * doy + 2) / 153
  let d : Nat := doy - (153 * mp + 2) / 5 + 1
  let m : Nat := if mp < 10 then mp + 3 else mp - 9
  (if mp < 10 then y else y + 1, m, d)

/-- Parse the `HH:MM[:SS[.f*]]` time body after `T`; returns hours, minutes,
seconds and the rest. -/
def parseTimeBody (l : List Char) : Option (Nat × Nat × Nat × List Char) :=
  match takeDigits 2 l with
  | none => none
  | some hh1 =>
    match hh1.2 with
    | ':' :: r5 =>
      (match takeDigits 2 r5 with
       | none => none
       | some mi1 =>
         match mi1.2 with
         | ':' :: r6 =>
           (match takeDigits 2 r6 with
            | none => none
            | some ss1 =>
              match ss1.2 with
              | '.' :: r7 =>
                let fs := r7.takeWhile Char.isDigit
                if fs = [] then none
                else some (hh1.1, mi1.1, ss1.1, r7.drop fs.length)
              | rest => some (hh1.1, mi1.1, ss1.1, rest))
         | rest => some (hh1.1, mi1.1, 0, rest))
    | _ => none

/-- Parse the `hh[:]mm` digits of an explicit offset; seconds east of UTC. -/
def parseOffsetDigits (l : List Char) : Option Nat :=
  match takeDigits 2 l with
  | none => none
  | some oh =>
    match oh.2 with
    | ':' :: r8 =>
      (match takeDigits 2 r8 with
       | some om => if om.2 = [] then some ((oh.1 * 60 + om.1) * 60) else none
       | none => none)
    | r8 =>
      match takeDigits 2 r8 with
      | some om => if om.2 = [] then some ((oh.1 * 60 + om.1) * 60) else none
      | none => none

/-- Parse the trailing offset designator: empty and `Z`/`z` are UTC, explicit
offsets are honored; anything else fails. -/
def parseOffsetPart (l : List Char) : Option Int :=
  match l with
  | [] => some 0
  | ['Z'] => some 0
  | ['z'] => some 0
  | '+' :: r => (parseOffsetDigits r).map (fun n => (n : Int))
  | '-' :: r => (parseOffsetDigits r).map (fun n => -((n : Nat) : Int))
  | _ => none

/-- Parse an ISO-8601 instant `YYYY-MM-DD[THH:MM[:SS[.f*]]][Z|±hh:mm|±hhmm]`
to epoch seconds (the ISO subset of `new Date(string)`; fractional seconds
are parsed and discarded, as no token renders them). -/
def parseIsoInstant (s : String) : Option Int :=
  match takeDigits 4 s.data with
  | none => none
  | some yr1 =>
    match yr1.2 with
    | '-' :: r2 =>
      (match takeDigits 2 r2 with
       | none => none
       | some mo1 =>
         match mo1.2 with
         | '-' :: r3 =>
           (match takeDigits 2 r3 with
            | none => none
            | some dy1 =>
              if mo1.1 < 1 ∨ 12 < mo1.1 ∨ dy1.1 < 1 ∨ 31 < dy1.1 then none
              else
                let hmsr : Option (Nat × Nat × Nat × List Char) :=
                  match dy1.2 with
                  | 'T' :: r4 => parseTimeBody r4
                  | rest => some (0, 0, 0, rest)
                match hmsr with
                | none => none
                | some t4 =>
                  if 24 ≤ t4.1 ∨ 60 ≤ t4.2.1 ∨ 60 ≤ t4.2.2.1 then none
                  else
                    match parseOffsetPart t4.2.2.2 with
                    | none => none
                    | some off =>
                      some (daysFromCivil (yr1.1 : Int) mo1.1 dy1.1 * 86400 +
                        ((t4.1 * 3600 + t4.2.1 * 60 + t4.2.2.1 : Nat) : Int) - off))
         | _ => none)
    | _ => none

/-- The display-timezone offset, in minutes east of UTC.  The IANA timezone
database is external to the repository (`Intl.DateTimeFormat` machinery); the
embedding models the zones the repository exercises — `UTC` (the default) and
`Asia/Tokyo` (fixed +09:00, no DST) — and treats any other name as UTC. -/
def tzOffsetMinutes (tz : String) : Int :=
  if tz = "Asia/Tokyo" then 540 else 0

/-- Zero-padded two-digit field. -/
def pad2 (n : Nat) : String :=
  if n < 10 then "0" ++ natToStr n else natToStr n

/-- Substitute the `YYYY|MM|DD|HH|mm|ss` tokens (first alternative wins at
each position, as the source's global regex does), fuel-indexed. -/
def applyDateTokensAux (yyyy mm dd hh mi ss : String) : Nat → List Char → List Char
  | 0, l => l
  | _ + 1, [] => []
  | fuel + 1, l =>
    if ("YYYY".data).isPrefixOf l then yyyy.data ++ applyDateTokensAux yyyy mm dd hh mi ss fuel (l.drop 4)
    else if ("MM".data).isPrefixOf l then mm.data ++ applyDateTokensAux yyyy mm dd hh mi ss fuel (l.drop 2)
    else if ("DD".data).isPrefixOf l then dd.data ++ applyDateTokensAux yyyy mm dd hh mi ss fuel (l.drop 2)
    else if ("HH".data).isPrefixOf l then hh.data ++ applyDateTokensAux yyyy mm dd hh mi ss fuel (l.drop 2)
    else if ("mm".data).isPrefixOf l then mi.data ++ applyDateTokensAux yyyy mm dd hh mi ss fuel (l.drop 2)
    else if ("ss".data).isPrefixOf l then ss.data ++ applyDateTokensAux yyyy mm dd hh mi ss fuel (l.drop 2)
    else
      match l with
      | [] => []
      | c :: cs => c :: applyDateTokensAux yyyy mm dd hh mi ss fuel cs

/-- `applyDateTokens`. -/
def applyDateTokens (format yyyy mm dd hh mi ss : String) : String :=
  String.mk (applyDateTokensAux yyyy mm dd hh mi ss (format.data.length + 1) format.data)

/-- The `date` branch's prefix pattern `^(\d{4})-(\d{2})-(\d{2})`. -/
def matchDatePattern (l : List Char) : Option (String × String × String) :=
  match takeDigits 4 l with
  | some y =>
    (match y.2 with
     | '-' :: r =>
       (match takeDigits 2 r with
        | some m =>
          (match m.2 with
           | '-' :: r2 =>
             (match takeDigits 2 r2 with
              | some d => some (String.mk (l.take 4), String.mk (r.take 2), String.mk (r2.take 2))
              | none => none)
           | _ => none)
        | none => none)
     | _ => none)
  | none => none

/-- The `time` branch's prefix pattern `^(\d{2}):(\d{2})(?::(\d{2}))?`. -/
def matchTimePattern (l : List Char) : Option (String × String × Option String) :=
  match takeDigits 2 l with
  | some h =>
    (match h.2 with
     | ':' :: r =>
       (match takeDigits 2 r with
        | some m =>
          (match m.2 with
           | ':' :: r2 =>
             (match takeDigits 2 r2 with
              | some _ => some (String.mk (l.take 2), String.mk (r.take 2), some (String.mk (r2.take 2)))
              | none => some (String.mk (l.take 2), String.mk (r.take 2), none))
           | _ => some (String.mk (l.take 2), String.mk (r.take 2), none))
        | none => none)
     | _ => none)
  | none => none

/-- `formatDateValue`: null renders empty; `date` and `time` values are
re-emitted from fixed-position components with no timezone conversion;
anything else is parsed as an ISO instant (no offset or `Z` means UTC),
projected into the display timezone, and token-substituted; a value that
fails to parse is returned unchanged. -/
def formatDateValue (value : Value) (dataType : Option DataType) (format timezone : String) :
    String :=
  if isNullish value then ""
  else
    let source := jsToString value
    if dataType = some .date then
      match matchDatePattern source.data with
      | none => source
      | some ymd => applyDateTokens format ymd.1 ymd.2.1 ymd.2.2 "00" "00" "00"
    else if dataType = some .time then
      match matchTimePattern source.data with
      | none => source
      | some hms => applyDateTokens format "0000" "00" "00" hms.1 hms.2.1 (hms.2.2.getD "00")
    else
      let normalized := if hasOffset source then source else source ++ "Z"
      match parseIsoInstant normalized with
      | none => source
      | some epoch =>
        let t := epoch + tzOffsetMinutes timezone * 60
        let days := Int.fdiv t 86400
        let secs : Nat := (t - days * 86400).toNat
        let ymd := civilFromDays days
        applyDateTokens format (intToStr ymd.1) (pad2 ymd.2.1) (pad2 ymd.2.2)
          (pad2 (secs / 3600)) (pad2 (secs % 3600 / 60)) (pad2 (secs % 60))

/-! ### `applySingleFilter` and `applyFilters` -/

/-- `applySingleFilter`: the filter registry switch.  An unknown name throws
`Unknown filter`; the `fixed` filter throws the `toFixed` RangeError when its
digits argument is outside 0..100. -/
def applySingleFilter (value : Value) (filter : Filter) (context : FilterContext) :
    Except String Value :=
  if filter.name = "default" then
    .ok (if isNullish value then .str (filter.args.getD 0 "") else value)
  else if filter.name = "upper" then
    .ok (.str ((strOfNullable value).toUpper))
  else if filter.name = "lower" then
    .ok (.str ((strOfNullable value).toLower))
  else if filter.name = "replace" then
    .ok (.str (jsReplaceAll (strOfNullable value) (filter.args.getD 0 "") (filter.args.getD 1 "")))
  else if filter.name = "pad-left" then
    .ok (.str (jsPadStart (strOfNullable value)
      (toLengthNat (parseNumStr (filter.args.getD 0 "0"))) (filter.args.getD 1 "0")))
  else if filter.name = "slice" then
    .ok (.str (jsSlice (strOfNullable value)
      (parseNumStr (filter.args.getD 0 "0")) (parseNumStr (filter.args.getD 1 "0"))))
  else if filter.name = "zenkaku" then
    .ok (.str (toZenkaku (strOfNullable value)))
  else if filter.name = "hankaku" then
    .ok (.str (toHankaku (strOfNullable value)))
  else if filter.name = "comma" then
    let numeric := jsToNumber (if isNullish value then Value.num (.rat 0) else value)
    .ok (.str (if jsIsFinite numeric then commaFormat numeric else strOfNullable value))
  else if filter.name = "fixed" then
    let digits := parseNumStr (filter.args.getD 0 "0")
    let numeric := jsToNumber (if isNullish value then Value.num (.rat 0) else value)
    if jsIsFinite numeric then
      match toFixedDigits digits with
      | none => .error "RangeError: toFixed() digits argument must be between 0 and 100"
      | some f =>
        .ok (.str (toFixedStr (match numeric with | .rat q => q | _ => 0) f))
    else .ok (.str (strOfNullable value))
  else if filter.name = "either" then
    .ok (.str (if jsTruthyV value then filter.args.getD 0 "" else filter.args.getD 1 ""))
  else if filter.name = "date-format" then
    .ok (.str (formatDateValue value context.dataType (filter.args.getD 0 "YYYY-MM-DD")
      (context.timezone.getD "UTC")))
  else .error ("Unknown filter: " ++ filter.name)

/-- `applyFilters`: left-to-right reduction of the filter chain. -/
def applyFilters (value : Value) (filters : List Filter) (context : FilterContext) :
    Except String Value :=
  match filters with
  | [] => .ok value
  | f :: rest =>
    match applySingleFilter value f context with
    | .error e => .error e
    | .ok v2 => applyFilters v2 rest context

/-! ## `getByPath` (dynamic path resolution) -/

/-- A canonical array index string (`"0"`, or digits with no leading zero). -/
def parseCanonicalIndex (key : String) : Option Nat :=
  match key.data with
  | [] => none
  | ['0'] => some 0
  | c :: cs =>
    if c.isDigit ∧ c ≠ '0' ∧ cs.all Char.isDigit then some (digitsToNat (c :: cs)) else none

/-- Property read on an array value (`length` and canonical indices; other
keys are absent). -/
def arrIndex (xs : List Value) (key : String) : Value :=
  if key = "length" then .num (.rat xs.length)
  else
    match parseCanonicalIndex key with
    | some i => xs.getD i .undef
    | none => Value.undef

/-- The cursor loop of `getByPath`: a lookup through a value that is neither a
plain object nor an array yields `undefined` instead of raising. -/
def getByPathCursor : Value → List String → Value
  | cursor, [] => cursor
  | cursor, key :: rest =>
    match cursor with
    | .obj fs => getByPathCursor ((assocGet? fs key).getD .undef) rest
    | .arr xs => getByPathCursor (arrIndex xs key) rest
    | _ => Value.undef

/-- `getByPath`: an empty part list resolves to `undefined`; a first segment
bound in the dynamic alias map starts the cursor at the bound value, otherwise
the cursor starts at the root data object. -/
def getByPath (data aliases : List (String × Value)) (path : String) : Value :=
  match normalizePath path with
  | [] => .undef
  | p0 :: rest =>
    if assocHas aliases p0 then getByPathCursor ((assocGet? aliases p0).getD .undef) rest
    else getByPathCursor (.obj data) (p0 :: rest)

/-! ## `renderer.ts` -/

/-- `RenderOptions`. -/
structure RenderOptions where
  timezone : Option String := none

/-- The render context: root data, dynamic alias scope, display timezone. -/
structure RenderContext where
  data : List (String × Value)
  aliases : List (String × Value)
  timezone : String

/-- `buildRenderedAttributes`: explicit `style` plus `data-break-before` /
`data-break-after` print styles, then every non-control attribute in insertion
order, then the merged `style` attribute.  This is the only place the renderer
emits styles; no implicit page-break style is injected anywhere. -/
def buildRenderedAttributes (attributes : List (String × String)) : String :=
  let originalStyle := (assocGet? attributes "style").getD ""
  let breakBefore := (assocGet? attributes "data-break-before").getD ""
  let breakAfter := (assocGet? attributes "data-break-after").getD ""
  let styleParts :=
    (if originalStyle ≠ "" then [originalStyle] else []) ++
    (if breakBefore ≠ "" then ["page-break-before:" ++ breakBefore] else []) ++
    (if breakAfter ≠ "" then ["page-break-after:" ++ breakAfter] else [])
  let entries := attributes.filterMap (fun kv =>
    if kv.1 ∈ CONTROL_ATTRIBUTES ∨ kv.1 = "style" then none
    else some (kv.1 ++ "=\x22" ++ escapeHtml kv.2 ++ "\x22"))
  let entries2 := entries ++
    (if styleParts ≠ [] then ["style=\x22" ++ escapeHtml (joinSep "; " styleParts) ++ "\x22"] else [])
  if entries2 ≠ [] then " " ++ joinSep " " entries2 else ""

/-- One text segment's rendered markup: literals escape; interpolations
resolve, filter, and render nullish results as empty text. -/
def renderSegment (context : RenderContext) : TextSegment → Except String String
  | .literal v => .ok (escapeHtml v)
  | .interpolation seg =>
    let resolved := getByPath context.data context.aliases seg.path
    match applyFilters resolved seg.filters
        { dataType := some seg.dataType, timezone := some context.timezone } with
    | .error e => .error e
    | .ok filtered => .ok (if isNullish filtered then "" else escapeHtml (jsToString filtered))

/-- A text node's rendered markup: segment strings joined. -/
def renderSegments (context : RenderContext) : List TextSegment → Except String String
  | [] => .ok ""
  | s :: rest =>
    match renderSegment context s with
    | .error e => .error e
    | .ok r =>
      match renderSegments context rest with
      | .error e => .error e
      | .ok rs => .ok (r ++ rs)

/-- `data-max-rows` as a number: `Infinity` when the attribute is absent or
empty, otherwise `parseInt`. -/
def maxCountOf (attributes : List (String × String)) : JsNum :=
  let a := (assocGet? attributes "data-max-rows").getD ""
  if a ≠ "" then jsParseInt a else .posInf

/-- `data-fixed-rows` as a number: `0` when absent or empty. -/
def fixedCountOf (attributes : List (String × String)) : JsNum :=
  let a := (assocGet? attributes "data-fixed-rows").getD ""
  if a ≠ "" then jsParseInt a else .rat 0

/-- `Math.min(list.length, maxCount)`. -/
def jsMinLen (len : Nat) (m : JsNum) : JsNum :=
  match m with
  | .nan => .nan
  | .posInf => .rat len
  | .negInf => .negInf
  | .negZero => .negZero
  | .rat q => if (len : ℚ) ≤ q then .rat len else .rat q

/-- `Math.max` of two numbers. -/
def jsMaxNum : JsNum → JsNum → JsNum
  | .nan, _ => .nan
  | _, .nan => .nan
  | .posInf, _ => .posInf
  | _, .posInf => .posInf
  | .negInf, b => b
  | a, .negInf => a
  | .negZero, .negZero => .negZero
  | .negZero, .rat q => if q < 0 then .negZero else .rat q
  | .rat q, .negZero => if q < 0 then .negZero else .rat q
  | .rat a, .rat b => .rat (max a b)

/-- The number of loop iterations `index = 0, 1, ...` with `index < bound`
(`NaN` comparisons are false, so a `NaN` bound runs zero iterations). -/
def loopCount : JsNum → Nat
  | .rat q => if q ≤ 0 then 0 else (Int.ceil q).toNat
  | .posInf => 0
  | _ => 0

/-- Is `index < bound` (JavaScript `<` with a `Nat` left operand)? -/
def jsLtNat (i : Nat) (n : JsNum) : Bool :=
  match n with
  | .rat q => decide ((i : ℚ) < q)
  | .posInf => true
  | _ => false

/-- The per-instance render contexts built by `renderIteratedElement`'s loop:
instance `index` binds the alias to the source item below `effectiveLength`
and to an empty object beyond it, plus the `$index` and `$page` companions. -/
def iterationContexts (attributes : List (String × String)) (aliasName : String)
    (xs : List Value) (context : RenderContext) : List RenderContext :=
  let maxCount := maxCountOf attributes
  let fixedCount := fixedCountOf attributes
  let effectiveLength := jsMinLen xs.length maxCount
  let totalRows := jsMaxNum effectiveLength fixedCount
  (List.range (loopCount totalRows)).map (fun index =>
    let aliases1 := assocSet context.aliases aliasName
      (if jsLtNat index effectiveLength then xs.getD index .undef else .obj [])
    let aliases2 := assocSet aliases1 "$index" (.num (.rat index))
    let aliases3 := assocSet aliases2 "$page" (.obj
      [("index", .num (.rat index)), ("number", .num (.rat (index + 1))),
       ("count", .num totalRows)])
    { context with aliases := aliases3 })

mutual

/-- `renderNode`: text nodes render their segments, elements dispatch. -/
def renderNode (n : DslNode) (context : RenderContext) : Except String String :=
  match n with
  | .text segments => renderSegments context segments
  | .elem tagName attributes children => renderElement tagName attributes children context
termination_by (10 * sizeOf n, 0)
decreasing_by all_goals simp_wf <;> omega

/-- `renderElement`: a truthy `data-page` (else `data-repeat`) attribute
dispatches to iterated rendering, otherwise the element renders once. -/
def renderElement (tagName : String) (attributes : List (String × String))
    (children : List DslNode) (context : RenderContext) : Except String String :=
  let pageExpr := (assocGet? attributes "data-page").getD ""
  if pageExpr ≠ "" then renderIteratedElement tagName attributes children pageExpr context
  else
    let repeatExpr := (assocGet? attributes "data-repeat").getD ""
    if repeatExpr ≠ "" then renderIteratedElement tagName attributes children repeatExpr context
    else renderElementOnce tagName attributes children context
termination_by (10 * sizeOf children + 9, 0)
decreasing_by all_goals simp_wf <;> omega

/-- `renderIteratedElement`: parse the iteration expression (a parse failure
throws), resolve the source; a non-array renders as empty; otherwise render
one instance per loop context and join. -/
def renderIteratedElement (tagName : String) (attributes : List (String × String))
    (children : List DslNode) (expression : String) (context : RenderContext) :
    Except String String :=
  match parseIterationExpression expression with
  | .error e => .error e
  | .ok pa =>
    match getByPath context.data context.aliases pa.1 with
    | .arr xs =>
      (match renderInstances tagName attributes children
          (iterationContexts attributes pa.2 xs context) with
       | .error e => .error e
       | .ok pieces => .ok (joinSep "" pieces))
    | _ => .ok ""
termination_by (10 * sizeOf children + 8, 0)
decreasing_by all_goals simp_wf <;> omega

/-- The iteration loop: render the element once per instance context. -/
def renderInstances (tagName : String) (attributes : List (String × String))
    (children : List DslNode) (ctxs : List RenderContext) : Except String (List String) :=
  match ctxs with
  | [] => .ok []
  | c :: rest =>
    match renderElementOnce tagName attributes children c with
    | .error e => .error e
    | .ok r =>
      match renderInstances tagName attributes children rest with
      | .error e => .error e
      | .ok rs => .ok (r :: rs)
termination_by (10 * sizeOf children + 7, ctxs.length)
decreasing_by all_goals simp_wf <;> omega

/-- `renderElementOnce`: a truthy `data-if` attribute whose resolved value is
falsy skips the element and its whole subtree. -/
def renderElementOnce (tagName : String) (attributes : List (String × String))
    (children : List DslNode) (context : RenderContext) : Except String String :=
  let conditionPath := (assocGet? attributes "data-if").getD ""
  if conditionPath ≠ "" ∧
      jsTruthyV (getByPath context.data context.aliases conditionPath) = false then .ok ""
  else renderElementBody tagName attributes children context
termination_by (10 * sizeOf children + 6, 0)
decreasing_by all_goals simp_wf <;> omega

/-- The rest of `renderElementOnce` after the conditional check: `meta`
renders empty; void tags render their opening tag; otherwise children render
between the tags. -/
def renderElementBody (tagName : String) (attributes : List (String × String))
    (children : List DslNode) (context : RenderContext) : Except String String :=
  if tagName = "meta" then .ok ""
  else
    let opening := "<" ++ tagName ++ buildRenderedAttributes attributes ++ ">"
    if isVoidTag tagName then .ok opening
    else
      match renderChildren children context with
      | .error e => .error e
      | .ok body => .ok (opening ++ body ++ "</" ++ tagName ++ ">")
termination_by (10 * sizeOf children + 5, 0)
decreasing_by all_goals simp_wf <;> omega

/-- Render a child list and join. -/
def renderChildren (children : List DslNode) (context : RenderContext) :
    Except String String :=
  match children with
  | [] => .ok ""
  | n :: rest =>
    match renderNode n context with
    | .error e => .error e
    | .ok r =>
      match renderChildren rest context with
      | .error e => .error e
      | .ok rs => .ok (r ++ rs)
termination_by (10 * sizeOf children, 0)
decreasing_by all_goals simp_wf <;> omega

end

/-- `renderAst`: read the global configuration, build the root context and
render the root element (the source's root is an `ElementNode`, given here by
its three components). -/
def renderAst (tagName : String) (attributes : List (String × String))
    (children : List DslNode) (data : List (String × Value))
    (options : RenderOptions := {}) : Except String String :=
  let globalConfig := collectGlobalConfig (.elem tagName attributes children)
  renderElement tagName attributes children
    { data := data, aliases := [],
      timezone := options.timezone.getD globalConfig.timezone }

/-! ## `expression-parser.ts` -/

/-- JavaScript `parseFloat`: the longest numeric-literal (or `Infinity`)
prefix after leading whitespace, `NaN` when there is none. -/
def jsParseFloat (s : String) : JsNum :=
  let cs := dropLeadSpace s.data
  let sgn_rest : Int × List Char :=
    match cs with
    | '-' :: r => (-1, r)
    | '+' :: r => (1, r)
    | r => (1, r)
  if ("Infinity".data).isPrefixOf sgn_rest.2 then
    (if sgn_rest.1 < 0 then .negInf else .posInf)
  else
    let intPart := sgn_rest.2.takeWhile Char.isDigit
    let rest1 := sgn_rest.2.drop intPart.length
    let fracPart :=
      match rest1 with
      | '.' :: r => r.takeWhile Char.isDigit
      | _ => []
    if intPart = [] ∧ fracPart = [] then .nan
    else
      let mant : ℚ := (digitsToNat intPart : ℚ) +
        (digitsToNat fracPart : ℚ) / ((10 : ℚ) ^ fracPart.length)
      let v : ℚ := (sgn_rest.1 : ℚ) * mant
      if v = 0 ∧ sgn_rest.1 < 0 then .negZero else .rat v

/-- `quoteAwareSplit`'s scanner: split on the delimiter outside single or
double quotes (an unterminated quote never closes and never errors),
fuel-indexed (each step consumes at least one character). -/
def quoteAwareSplitAux (delim : List Char) : Nat → List Char → Option Char → List Char →
    List String → List String
  | 0, _, _, current, parts => parts ++ [String.mk current.reverse]
  | _ + 1, [], _, current, parts =>
    if current ≠ [] ∨ parts ≠ [] then parts ++ [String.mk current.reverse] else []
  | fuel + 1, ch :: rest, some q, current, parts =>
    quoteAwareSplitAux delim fuel rest (if ch = q then none else some q) (ch :: current) parts
  | fuel + 1, ch :: rest, none, current, parts =>
    if ch = '"' ∨ ch = '\'' then
      quoteAwareSplitAux delim fuel rest (some ch) (ch :: current) parts
    else if delim.isPrefixOf (ch :: rest) then
      quoteAwareSplitAux delim fuel ((ch :: rest).drop delim.length) none []
        (parts ++ [String.mk current.reverse])
    else quoteAwareSplitAux delim fuel rest none (ch :: current) parts

/-- `quoteAwareSplit`. -/
def quoteAwareSplit (s delimiter : String) : List String :=
  quoteAwareSplitAux delimiter.data (s.data.length + 1) s.data none [] []

/-- `findUnquotedChar`: index of the first occurrence of `ch` outside quotes
(the source returns `-1`, embedded as `none`). -/
def findUnquotedCharAux (ch : Char) : List Char → Option Char → Nat → Option Nat
  | [], _, _ => none
  | c :: rest, some q, i => findUnquotedCharAux ch rest (if c = q then none else some q) (i + 1)
  | c :: rest, none, i =>
    if c = '"' ∨ c = '\'' then findUnquotedCharAux ch rest (some c) (i + 1)
    else if c = ch then some i
    else findUnquotedCharAux ch rest none (i + 1)

/-- `findUnquotedChar`. -/
def findUnquotedChar (s : String) (ch : Char) : Option Nat :=
  findUnquotedCharAux ch s.data none 0

/-- `findMatchingParen`'s scan (depth counter, quote state). -/
def findMatchingParenAux : List Char → Option Char → Nat → Nat → Option Nat
  | [], _, _, _ => none
  | c :: rest, some q, depth, i =>
    findMatchingParenAux rest (if c = q then none else some q) depth (i + 1)
  | c :: rest, none, depth, i =>
    if c = '"' ∨ c = '\'' then findMatchingParenAux rest (some c) depth (i + 1)
    else if c = '(' then findMatchingParenAux rest none (depth + 1) (i + 1)
    else if c = ')' then
      (if depth = 1 then some i else findMatchingParenAux rest none (depth - 1) (i + 1))
    else findMatchingParenAux rest none depth (i + 1)

/-- `findMatchingParen`: the close matching the open at `openIdx`. -/
def findMatchingParen (s : String) (openIdx : Nat) : Option Nat :=
  findMatchingParenAux (s.data.drop openIdx) none 0 openIdx

/-- `unquote`: strip one matching pair of surrounding quotes. -/
def unquote (s : String) : String :=
  match s.data with
  | [] => s
  | [_] => s
  | c :: d :: rest2 =>
    let lastC := (d :: rest2).getLast (by simp)
    if (c = '"' ∧ lastC = '"') ∨ (c = '\'' ∧ lastC = '\'') then
      String.mk ((d :: rest2).take ((d :: rest2).length - 1))
    else s

/-- Does `s` match `[A-Za-z_$][A-Za-z0-9_$]*` (one identifier)? -/
def identOk (s : String) : Bool := iterAliasOk s

/-- Does `s` match `identifier(.identifier)*` (the `PATH_RE` test)? -/
def dotPathOk (s : String) : Bool :=
  let parts := jsSplitChar '.' s
  !parts.isEmpty && parts.all identOk

/-- The data type named by a type annotation. -/
def dataTypeOfName : String → Option DataType
  | "string" => some .string
  | "integer" => some .integer
  | "number" => some .number
  | "boolean" => some .boolean
  | "date" => some .date
  | "time" => some .time
  | "datetime" => some .datetime
  | _ => none

/-- Index of the first occurrence of a character (JavaScript `indexOf`,
`none` for `-1`). -/
def charIndexOf (s : String) (ch : Char) : Option Nat :=
  (s.data.findIdx? (fun c => c = ch))

/-- `parsePathType`: split `path:type[?]` at the first colon; a missing colon,
an invalid path or an unknown type throws. -/
def parsePathType (s : String) : Except String (String × DataType × Bool) :=
  match charIndexOf s ':' with
  | none => .error "Type is required. Use \x7b\x7b path:type ... \x7d\x7d"
  | some colonIdx =>
    let path := jsTrim (String.mk (s.data.take colonIdx))
    if ¬ dotPathOk path then .error ("Invalid path: " ++ path)
    else
      let typeStr0 := jsTrim (String.mk (s.data.drop (colonIdx + 1)))
      let nullable := jsEndsWith typeStr0 "?"
      let typeStr := if nullable then jsTrim (dropRightStr typeStr0 1) else typeStr0
      match dataTypeOfName typeStr with
      | none => .error ("Invalid data type: " ++ typeStr)
      | some dt => .ok (path, dt, nullable)

/-- The constraint keywords recognized by the comma disambiguation. -/
def constraintNames : List String :=
  ["enum", "min", "max", "exMin", "exMax", "step", "pattern", "fixed",
   "minLength", "maxLength"]

/-- `quoteAwareSplitConstraints`' scanner: split on a comma only when it is
followed (after optional space) by `name:` for a known constraint name,
fuel-indexed. -/
def qascAux : Nat → List Char → Option Char → List Char → List String → List String
  | 0, _, _, current, entries => entries ++ [String.mk current.reverse]
  | _ + 1, [], _, current, entries =>
    if jsTrim (String.mk current.reverse) ≠ "" then entries ++ [String.mk current.reverse]
    else entries
  | fuel + 1, ch :: rest, some q, current, entries =>
    qascAux fuel rest (if ch = q then none else some q) (ch :: current) entries
  | fuel + 1, ch :: rest, none, current, entries =>
    if ch = '"' ∨ ch = '\'' then qascAux fuel rest (some ch) (ch :: current) entries
    else if ch = ',' then
      let afterComma := dropLeadSpace rest
      if constraintNames.any (fun name =>
          ((name ++ ":").data).isPrefixOf afterComma) then
        qascAux fuel (rest.dropWhile (fun c => c = ' ')) none []
          (entries ++ [String.mk current.reverse])
      else qascAux fuel rest none (ch :: current) entries
    else qascAux fuel rest none (ch :: current) entries

/-- `quoteAwareSplitConstraints`. -/
def quoteAwareSplitConstraints (s : String) : List String :=
  qascAux (s.data.length + 1) s.data none [] []

/-- `parseEnumValues`: quote-aware comma split, then per-type coercion. -/
def parseEnumValues (rawValue : String) (dataType : DataType) : List Json :=
  (quoteAwareSplit rawValue ",").map (fun part =>
    let unquoted := unquote (jsTrim part)
    match dataType with
    | .integer => .num (jsParseInt unquoted)
    | .number => .num (jsParseFloat unquoted)
    | .boolean => .bool (unquoted = "true")
    | _ => .str unquoted)

/-- `parseFixedValue`: per-type coercion of a `fixed` literal (an invalid
boolean literal throws). -/
def parseFixedValue (rawValue : String) (dataType : DataType) : Except String Json :=
  let unquoted := unquote rawValue
  match dataType with
  | .integer => .ok (.num (jsParseInt unquoted))
  | .number => .ok (.num (jsParseFloat unquoted))
  | .boolean =>
    if unquoted ≠ "true" ∧ unquoted ≠ "false" then
      .error ("Invalid boolean literal: " ++ unquoted)
    else .ok (.bool (unquoted = "true"))
  | _ => .ok (.str unquoted)

/-- `buildConstraint`: the keyword switch, with per-type legality checks
(an illegal pair throws, never silently drops). -/
def buildConstraint (name rawValue : String) (dataType : DataType) : Except String Constraint :=
  let notAllowed : Except String Constraint :=
    .error ("Constraint \x22" ++ name ++ "\x22 is not allowed for type \x22" ++
      dataType.name ++ "\x22")
  if name = "enum" then
    match dataType with
    | .boolean => notAllowed | .date => notAllowed | .time => notAllowed
    | .datetime => notAllowed
    | _ => .ok (.enum (parseEnumValues rawValue dataType))
  else if name = "min" then
    match dataType with
    | .string => .ok (.minLength (parseNumStr rawValue))
    | .integer => .ok (.min (parseNumStr rawValue))
    | .number => .ok (.min (parseNumStr rawValue))
    | _ => notAllowed
  else if name = "max" then
    match dataType with
    | .string => .ok (.maxLength (parseNumStr rawValue))
    | .integer => .ok (.max (parseNumStr rawValue))
    | .number => .ok (.max (parseNumStr rawValue))
    | _ => notAllowed
  else if name = "exMin" then
    match dataType with
    | .integer => .ok (.exMin (parseNumStr rawValue))
    | .number => .ok (.exMin (parseNumStr rawValue))
    | _ => notAllowed
  else if name = "exMax" then
    match dataType with
    | .integer => .ok (.exMax (parseNumStr rawValue))
    | .number => .ok (.exMax (parseNumStr rawValue))
    | _ => notAllowed
  else if name = "step" then
    match dataType with
    | .integer => .ok (.step (parseNumStr rawValue))
    | .number => .ok (.step (parseNumStr rawValue))
    | _ => notAllowed
  else if name = "pattern" then
    match dataType with
    | .string => .ok (.pattern (unquote rawValue))
    | _ => notAllowed
  else if name = "fixed" then
    match dataType with
    | .date => notAllowed | .time => notAllowed | .datetime => notAllowed
    | _ =>
      match parseFixedValue rawValue dataType with
      | .error e => .error e
      | .ok v => .ok (.fixed v)
  else .error ("Unknown constraint: " ++ name)

/-- `parseConstraints`: split entries, skip blanks and colon-less entries,
build each constraint. -/
def parseConstraintEntries (dataType : DataType) : List String → Except String (List Constraint)
  | [] => .ok []
  | entry :: rest =>
    let trimmed := jsTrim entry
    if trimmed = "" then parseConstraintEntries dataType rest
    else
      match charIndexOf trimmed ':' with
      | none => parseConstraintEntries dataType rest
      | some colonIdx =>
        let name := jsTrim (String.mk (trimmed.data.take colonIdx))
        let rawValue := jsTrim (String.mk (trimmed.data.drop (colonIdx + 1)))
        match buildConstraint name rawValue dataType with
        | .error e => .error e
        | .ok c =>
          match parseConstraintEntries dataType rest with
          | .error e => .error e
          | .ok cs => .ok (c :: cs)

/-- `parseConstraints`. -/
def parseConstraints (str : String) (dataType : DataType) : Except String (List Constraint) :=
  parseConstraintEntries dataType (quoteAwareSplitConstraints str)

/-- The `FILTER_SPECS` arity table: `(min, max)` argument counts per
`(dataType, filterName)`; `none` when the filter is not allowed. -/
def filterSpec (dataType : DataType) (name : String) : Option (Nat × Nat) :=
  match dataType with
  | .string =>
    if name = "upper" ∨ name = "lower" ∨ name = "zenkaku" ∨ name = "hankaku" then some (0, 0)
    else if name = "replace" ∨ name = "slice" then some (2, 2)
    else if name = "pad-left" then some (1, 2)
    else if name = "default" then some (1, 1)
    else none
  | .integer =>
    if name = "comma" then some (0, 0)
    else if name = "fixed" ∨ name = "default" then some (1, 1)
    else if name = "pad-left" then some (1, 2)
    else if name = "either" then some (2, 2)
    else none
  | .number =>
    if name = "comma" then some (0, 0)
    else if name = "fixed" ∨ name = "default" then some (1, 1)
    else if name = "pad-left" then some (1, 2)
    else if name = "either" then some (2, 2)
    else none
  | .boolean =>
    if name = "either" then some (2, 2)
    else if name = "default" then some (1, 1)
    else none
  | .date =>
    if name = "date-format" ∨ name = "default" then some (1, 1) else none
  | .time =>
    if name = "date-format" ∨ name = "default" then some (1, 1) else none
  | .datetime =>
    if name = "date-format" ∨ name = "default" then some (1, 1) else none

/-- `parseFilter`: split `name[:args]`, quote-aware argument split with
unquoting, then allow-list and arity validation — all before any data
exists. -/
def parseFilter (s : String) (dataType : DataType) : Except String Filter :=
  let colonIdx := charIndexOf s ':'
  let name :=
    match colonIdx with
    | none => jsTrim s
    | some i => jsTrim (String.mk (s.data.take i))
  let argsStr :=
    match colonIdx with
    | none => ""
    | some i => jsTrim (String.mk (s.data.drop (i + 1)))
  let args :=
    if argsStr = "" then []
    else (quoteAwareSplit argsStr ",").map (fun a => unquote (jsTrim a))
  match filterSpec dataType name with
  | none =>
    .error ("Filter \x22" ++ name ++ "\x22 is not allowed for type \x22" ++ dataType.name ++ "\x22")
  | some spec =>
    if args.length < spec.1 ∨ spec.2 < args.length then
      .error ("Filter \x22" ++ name ++ "\x22 for type \x22" ++ dataType.name ++
        "\x22 expects wrong arity")
    else if colonIdx = none then .ok { name := name, args := [] }
    else .ok { name := name, args := args }

/-- Parse the filter specifications left to right. -/
def parseFilterList (dataType : DataType) : List String → Except String (List Filter)
  | [] => .ok []
  | f :: rest =>
    match parseFilter (jsTrim f) dataType with
    | .error e => .error e
    | .ok flt =>
      match parseFilterList dataType rest with
      | .error e => .error e
      | .ok fs => .ok (flt :: fs)

/-- `parseInterpolation`: split off filters (quote-aware on `|`), locate the
unquoted parenthesized constraint body (unterminated or trailing content
throws), parse `path:type[?]`, the constraints, and the filters. -/
def parseInterpolation (inner : String) : Except String InterpolationSegment :=
  match quoteAwareSplit inner "|" with
  | [] => .error "TypeError: Cannot read properties of undefined (reading trim)"
  | p0 :: filterParts =>
    let mainPart := jsTrim p0
    let parenOpen := findUnquotedChar mainPart '('
    let parenClose := findUnquotedChar mainPart ')'
    let pathTypeAndConstraints : Except String (String × Option String) :=
      match parenOpen with
      | some po =>
        (match findMatchingParen mainPart po with
         | none => .error "Unclosed constraint parentheses"
         | some matched =>
           let trailing := jsTrim (String.mk (mainPart.data.drop (matched + 1)))
           if trailing ≠ "" then .error "Unmatched constraint parentheses"
           else .ok (jsTrim (String.mk (mainPart.data.take po)),
             some (jsTrim (String.mk ((mainPart.data.take matched).drop (po + 1))))))
      | none =>
        match parenClose with
        | some _ => .error "Unmatched constraint parentheses"
        | none => .ok (mainPart, none)
    match pathTypeAndConstraints with
    | .error e => .error e
    | .ok ptc =>
      match parsePathType ptc.1 with
      | .error e => .error e
      | .ok ptn =>
        let constraintsRes : Except String (List Constraint) :=
          match ptc.2 with
          | some cs => if cs ≠ "" then parseConstraints cs ptn.2.1 else .ok []
          | none => .ok []
        match constraintsRes with
        | .error e => .error e
        | .ok constraints =>
          match parseFilterList ptn.2.1 filterParts with
          | .error e => .error e
          | .ok filters =>
            .ok { path := ptn.1, dataType := ptn.2.1, nullable := ptn.2.2,
                  constraints := constraints, filters := filters }

/-- The `}}` scan of the interpolation regex: the `.` character class does not
cross line terminators, so a line break before the close makes the match at
this position fail. -/
def findCloser : List Char → Option (List Char × List Char)
  | [] => none
  | '}' :: '}' :: rest => some ([], rest)
  | c :: rest =>
    if c = '\n' ∨ c = '\r' then none
    else
      match findCloser rest with
      | some ir => some (c :: ir.1, ir.2)
      | none => none

/-- Merge a character into the leading literal segment (the contiguous
literal slices the source takes between matches). -/
def consLiteralChar (c : Char) : List TextSegment → List TextSegment
  | .literal s :: rest => .literal (String.mk (c :: s.data)) :: rest
  | segs => .literal (String.mk [c]) :: segs

/-- The interpolation-regex scan: find each leftmost `\x7b\x7b...\x7d\x7d`
match, parse its trimmed body, and collect literal slices between matches;
fuel-indexed (each step consumes at least one character). -/
def parseSegmentsAux : Nat → List Char → Except String (List TextSegment)
  | 0, l => .ok (if l = [] then [] else [.literal (String.mk l)])
  | _ + 1, [] => .ok []
  | fuel + 1, l =>
    match l with
    | '{' :: '{' :: rest =>
      (match findCloser rest with
       | some ir =>
         (match parseInterpolation (jsTrim (String.mk ir.1)) with
          | .error e => .error e
          | .ok seg =>
            match parseSegmentsAux fuel ir.2 with
            | .error e => .error e
            | .ok segs => .ok (.interpolation seg :: segs))
       | none =>
         match parseSegmentsAux fuel ('{' :: rest) with
         | .error e => .error e
         | .ok segs => .ok (consLiteralChar '{' segs))
    | c :: rest =>
      match parseSegmentsAux fuel rest with
      | .error e => .error e
      | .ok segs => .ok (consLiteralChar c segs)
    | [] => .ok []

/-- `parseTextSegments`. -/
def parseTextSegments (text : String) : Except String (List TextSegment) :=
  if text = "" then .ok []
  else parseSegmentsAux (text.data.length + 1) text.data

/-! ## Support lemmas -/

theorem assocGet_assocSet_self {α : Type} (l : List (String × α)) (k : String) (v : α) :
    assocGet? (assocSet l k v) k = some v := by
  induction l with
  | nil => simp [assocSet, assocGet?]
  | cons hd tl ih =>
    obtain ⟨k0, v0⟩ := hd
    by_cases h : k0 = k
    · simp [assocSet, assocGet?, h]
    · simp [assocSet, assocGet?, h, ih]

theorem assocGet_assocSet_ne {α : Type} (l : List (String × α)) (k k2 : String) (v : α)
    (h : k2 ≠ k) : assocGet? (assocSet l k v) k2 = assocGet? l k2 := by
  have hks : ¬ k = k2 := fun hh => h hh.symm
  induction l with
  | nil => simp [assocSet, assocGet?, hks]
  | cons hd tl ih =>
    obtain ⟨k0, v0⟩ := hd
    by_cases h0 : k0 = k
    · subst h0
      simp [assocSet, assocGet?, hks]
    · by_cases h2 : k0 = k2
      · simp [assocSet, assocGet?, h0, h2, h]
      · simp [assocSet, assocGet?, h0, h2, ih]

theorem renderInstances_length (tagName : String) (attributes : List (String × String))
    (children : List DslNode) :
    ∀ ctxs outs, renderInstances tagName attributes children ctxs = .ok outs →
      outs.length = ctxs.length := by
  intro ctxs
  induction ctxs with
  | nil =>
    intro outs h
    rw [renderInstances] at h
    cases h
    rfl
  | cons c rest ih =>
    intro outs h
    rw [renderInstances] at h
    cases h1 : renderElementOnce tagName attributes children c with
    | error e => rw [h1] at h; cases h
    | ok r =>
      rw [h1] at h
      cases h2 : renderInstances tagName attributes children rest with
      | error e => rw [h2] at h; cases h
      | ok rs =>
        rw [h2] at h
        cases h
        simp [ih rs h2]

/-! ## Claim theorems -/

/-! ### Iteration-count helper lemmas -/

theorem jsMinLen_posInf (N : Nat) : jsMinLen N .posInf = .rat N := rfl

theorem jsMinLen_rat_nat (N m : Nat) : jsMinLen N (.rat m) = .rat (((min N m : Nat)) : ℚ) := by
  by_cases h : (N : ℚ) ≤ (m : ℚ)
  · rw [jsMinLen, if_pos h]
    have h2 : N ≤ m := by exact_mod_cast h
    congr 1
    exact_mod_cast (Nat.min_eq_left h2).symm
  · rw [jsMinLen, if_neg h]
    have h2 : m ≤ N := Nat.le_of_lt (by exact_mod_cast not_le.mp h)
    congr 1
    exact_mod_cast (Nat.min_eq_right h2).symm

theorem jsMaxNum_rat_rat (a b : ℚ) : jsMaxNum (.rat a) (.rat b) = .rat (max a b) := rfl

theorem loopCount_natCast (n : Nat) : loopCount (.rat n) = n := by
  rcases Nat.eq_zero_or_pos n with h | h
  · subst h
    simp [loopCount]
  · have hn : ¬ ((n : ℚ) ≤ 0) := by
      simp only [not_le]
      exact_mod_cast h
    rw [loopCount, if_neg hn, Int.ceil_natCast, Int.toNat_natCast]

theorem jsLtNat_rat_nat (i n : Nat) : jsLtNat i (.rat n) = decide (i < n) := by
  simp [jsLtNat, Nat.cast_lt]

/-- The effective length `min(N, M)` with an optional max-row count. -/
def effLen (N : Nat) (M : Option Nat) : Nat :=
  match M with
  | none => N
  | some m => min N m

/-- `iterationContexts` in closed natural-number form: given the parsed
max-rows and fixed-rows values, the loop runs over
`List.range (max (effLen N M) F)` and binds the alias, `$index` and `$page`
as the source loop does. -/
theorem iterationContexts_eq (attributes : List (String × String)) (aliasName : String)
    (xs : List Value) (context : RenderContext) (M : Option Nat) (F : Nat)
    (hM : maxCountOf attributes =
      (match M with | none => JsNum.posInf | some m => JsNum.rat m))
    (hF : fixedCountOf attributes = .rat F) :
    iterationContexts attributes aliasName xs context =
      (List.range (max (effLen xs.length M) F)).map (fun index =>
        { context with aliases :=
            (assocSet (assocSet (assocSet context.aliases aliasName
              (if index < effLen xs.length M then xs.getD index .undef else .obj []))
              "$index" (.num (.rat index)))
              "$page" (.obj [("index", .num (.rat index)),
                             ("number", .num (.rat (index + 1))),
                             ("count", .num (.rat (((max (effLen xs.length M) F : Nat)) : ℚ)))])) }) := by
  have heff : jsMinLen xs.length (maxCountOf attributes) = .rat (effLen xs.length M) := by
    cases M with
    | none => rw [hM, jsMinLen_posInf, effLen]
    | some m => rw [hM, jsMinLen_rat_nat, effLen]
  have htot : jsMaxNum (jsMinLen xs.length (maxCountOf attributes)) (fixedCountOf attributes) =
      .rat (((max (effLen xs.length M) F : Nat)) : ℚ) := by
    rw [heff, hF, jsMaxNum_rat_rat, ← Nat.cast_max]
  rw [iterationContexts, htot, heff, loopCount_natCast]
  refine List.map_congr_left (fun i hi => ?_)
  rw [jsLtNat_rat_nat]
  simp only [decide_eq_true_eq]

/-! ### Claim C5 -/

/-- The `data-page` template of the implicit-page-break scenario: a section
iterating `contracts as contract` with a paragraph interpolating
`contract.customer`. -/
def c5section : DslNode :=
  .elem "section" [("data-page", "contracts as contract")]
    [.elem "p" [] [.text [.interpolation
      { path := "contract.customer", dataType := .string, nullable := false,
        constraints := [], filters := [] }]]]

/-- Two-contract data for the implicit-page-break scenario. -/
def c5data : List (String × Value) :=
  [("contracts", .arr [.obj [("customer", .str "One")], .obj [("customer", .str "Two")]])]

/-- The per-instance render context of the C5 scenario. -/
def c5ctx (i : Nat) : RenderContext :=
  { data := c5data,
    aliases := [("contract", .obj [("customer", .str (if i = 0 then "One" else "Two"))]),
                ("$index", .num (.rat i)),
                ("$page", .obj [("index", .num (.rat i)), ("number", .num (.rat (i + 1))),
                                ("count", .num (.rat 2))])],
    timezone := "UTC" }

theorem c5_contexts :
    iterationContexts [("data-page", "contracts as contract")] "contract"
      [.obj [("customer", .str "One")], .obj [("customer", .str "Two")]]
      { data := c5data, aliases := [], timezone := "UTC" } = [c5ctx 0, c5ctx 1] := by
  rw [iterationContexts_eq _ _ _ _ none 0 (by decide) (by decide)]
  simp [effLen, List.range_succ, assocSet, c5ctx]

/-- One unfolding step of the mutual renderer: the empty instance list. -/
theorem renderInstances_nil (t : String) (a : List (String × String)) (ch : List DslNode) :
    renderInstances t a ch [] = .ok [] := by
  simp only [renderInstances]

/-- One unfolding step of the mutual renderer: a successful head instance
followed by a successful tail. -/
theorem renderInstances_cons_ok (t : String) (a : List (String × String)) (ch : List DslNode)
    (c : RenderContext) (rest : List RenderContext) (r : String) (rs : List String)
    (h : renderElementOnce t a ch c = .ok r) (h2 : renderInstances t a ch rest = .ok rs) :
    renderInstances t a ch (c :: rest) = .ok (r :: rs) := by
  simp only [renderInstances, h, h2]

/-- Element nodes dispatch to `renderElement`. -/
theorem renderNode_elem (t : String) (a : List (String × String)) (ch : List DslNode)
    (ctx : RenderContext) : renderNode (.elem t a ch) ctx = renderElement t a ch ctx := by
  simp only [renderNode]

/-- A present, non-empty `data-page` attribute dispatches to the iterated path. -/
theorem renderElement_page (t : String) (a : List (String × String)) (ch : List DslNode)
    (ctx : RenderContext) (e : String) (h : assocGet? a "data-page" = some e)
    (he : e ≠ "") :
    renderElement t a ch ctx = renderIteratedElement t a ch e ctx := by
  simp only [renderElement, h, Option.getD_some, ne_eq, he, not_false_eq_true, if_true]

/-- With no `data-page` and a present, non-empty `data-repeat` attribute the
element also dispatches to the iterated path. -/
theorem renderElement_repeat (t : String) (a : List (String × String)) (ch : List DslNode)
    (ctx : RenderContext) (e : String) (h0 : assocGet? a "data-page" = none)
    (h : assocGet? a "data-repeat" = some e) (he : e ≠ "") :
    renderElement t a ch ctx = renderIteratedElement t a ch e ctx := by
  simp only [renderElement, h0, h, Option.getD_none, Option.getD_some, ne_eq,
    eq_self_iff_true, not_true, if_false, he, not_false_eq_true, if_true]

/-- With neither iteration attribute the element renders once. -/
theorem renderElement_plain (t : String) (a : List (String × String)) (ch : List DslNode)
    (ctx : RenderContext) (h1 : assocGet? a "data-page" = none)
    (h2 : assocGet? a "data-repeat" = none) :
    renderElement t a ch ctx = renderElementOnce t a ch ctx := by
  simp only [renderElement, h1, h2, Option.getD_none, ne_eq, eq_self_iff_true, not_true,
    if_false]

/-- The iterated path on a successfully parsed expression, an array source and
successful instances joins the instances with the empty separator. -/
theorem renderIteratedElement_ok (t : String) (a : List (String × String))
    (ch : List DslNode) (e : String) (ctx : RenderContext) (p al : String)
    (xs : List Value) (pieces : List String)
    (h1 : parseIterationExpression e = .ok (p, al))
    (h2 : getByPath ctx.data ctx.aliases p = .arr xs)
    (h3 : renderInstances t a ch (iterationContexts a al xs ctx) = .ok pieces) :
    renderIteratedElement t a ch e ctx = .ok (joinSep "" pieces) := by
  simp only [renderIteratedElement, h1, h2, h3]

/-- The iterated path propagates an iteration-expression parse error. -/
theorem renderIteratedElement_err (t : String) (a : List (String × String))
    (ch : List DslNode) (e : String) (ctx : RenderContext) (msg : String)
    (h : parseIterationExpression e = .error msg) :
    renderIteratedElement t a ch e ctx = .error msg := by
  simp only [renderIteratedElement, h]

/-- Without a `data-if` attribute the element always renders its body. -/
theorem renderElementOnce_noif (t : String) (a : List (String × String))
    (ch : List DslNode) (ctx : RenderContext) (h : assocGet? a "data-if" = none) :
    renderElementOnce t a ch ctx = renderElementBody t a ch ctx := by
  simp only [renderElementOnce, h, Option.getD_none, ne_eq, not_true_eq_false, false_and,
    if_false]

/-- A non-meta, non-void element whose children render successfully renders as
opening tag, body, closing tag. -/
theorem renderElementBody_ok (t : String) (a : List (String × String))
    (ch : List DslNode) (ctx : RenderContext) (body : String) (h1 : t ≠ "meta")
    (h2 : isVoidTag t = false) (h3 : renderChildren ch ctx = .ok body) :
    renderElementBody t a ch ctx =
      .ok ("<" ++ t ++ buildRenderedAttributes a ++ ">" ++ body ++ "</" ++ t ++ ">") := by
  simp only [renderElementBody, h1, h2, h3, if_false, Bool.false_eq_true, ite_false]

/-- An empty child list renders as the empty string. -/
theorem renderChildren_nil (ctx : RenderContext) : renderChildren [] ctx = .ok "" := by
  simp only [renderChildren]

/-- A child list whose head and tail render successfully concatenates them. -/
theorem renderChildren_cons_ok (n : DslNode) (rest : List DslNode) (ctx : RenderContext)
    (r rs : String) (h : renderNode n ctx = .ok r) (h2 : renderChildren rest ctx = .ok rs) :
    renderChildren (n :: rest) ctx = .ok (r ++ rs) := by
  simp only [renderChildren, h, h2]

/-- The interpolated paragraph text of a C5 loop instance. -/
theorem c5seg (i : Nat) :
    renderSegment (c5ctx i) (.interpolation
      { path := "contract.customer", dataType := .string, nullable := false,
        constraints := [], filters := [] }) =
      .ok (if i = 0 then "One" else "Two") := by
  rw [renderSegment]
  simp [getByPath, getByPathCursor, normalizePath, jsSplitChar, splitOnChar, assocGet?,
    assocHas, assocSet, applyFilters, isNullish, jsToString, escapeHtml, replaceChar,
    replaceCharChars, c5ctx, c5data]
  split <;> rfl

/-- One C5 loop instance renders to a bare section with no styles. -/
theorem c5inst (i : Nat) :
    renderElementOnce "section" [("data-page", "contracts as contract")]
      [.elem "p" [] [.text [.interpolation
        { path := "contract.customer", dataType := .string, nullable := false,
          constraints := [], filters := [] }]]] (c5ctx i) =
      .ok ("<section><p>" ++ (if i = 0 then "One" else "Two") ++ "</p></section>") := by
  simp only [renderElementOnce, renderElementBody, renderChildren, renderNode, renderElement,
    renderSegments, c5seg, assocGet?, buildRenderedAttributes, CONTROL_ATTRIBUTES,
    isVoidTag, joinSep, String.reduceEq, ite_true, ite_false, reduceIte, Option.getD_none,
    Option.getD_some, ne_eq, not_true_eq_false, not_false_eq_true, false_and, true_and,
    List.filterMap_cons, List.filterMap_nil, List.mem_cons, List.mem_singleton,
    List.not_mem_nil, or_false, false_or, true_or, or_true, if_false, if_true]
  simp [isVoidTag, escapeHtml, replaceChar, replaceCharChars, joinSep]
  split <;> rfl

/-- The two C5 loop instances render to the two bare sections. -/
theorem c5instances :
    renderInstances "section" [("data-page", "contracts as contract")]
      [.elem "p" [] [.text [.interpolation
        { path := "contract.customer", dataType := .string, nullable := false,
          constraints := [], filters := [] }]]] [c5ctx 0, c5ctx 1] =
      .ok ["<section><p>One</p></section>", "<section><p>Two</p></section>"] := by
  have e0 : renderElementOnce "section" [("data-page", "contracts as contract")]
      [.elem "p" [] [.text [.interpolation
        { path := "contract.customer", dataType := .string, nullable := false,
          constraints := [], filters := [] }]]] (c5ctx 0) =
      .ok "<section><p>One</p></section>" := by
    rw [c5inst 0]; norm_num; rfl
  have e1 : renderElementOnce "section" [("data-page", "contracts as contract")]
      [.elem "p" [] [.text [.interpolation
        { path := "contract.customer", dataType := .string, nullable := false,
          constraints := [], filters := [] }]]] (c5ctx 1) =
      .ok "<section><p>Two</p></section>" := by
    rw [c5inst 1]; norm_num; rfl
  exact renderInstances_cons_ok _ _ _ _ _ _ _ e0
    (renderInstances_cons_ok _ _ _ _ _ _ _ e1 (renderInstances_nil _ _ _))

/-- The C5 `data-page` iteration over the two-contract list renders the two
joined sections. -/
theorem c5iterlem :
    renderIteratedElement "section" [("data-page", "contracts as contract")]
      [.elem "p" [] [.text [.interpolation
        { path := "contract.customer", dataType := .string, nullable := false,
          constraints := [], filters := [] }]]] "contracts as contract"
      { data := c5data, aliases := [], timezone := "UTC" } =
      .ok "<section><p>One</p></section><section><p>Two</p></section>" := by
  have h3 : renderInstances "section" [("data-page", "contracts as contract")]
      [.elem "p" [] [.text [.interpolation
        { path := "contract.customer", dataType := .string, nullable := false,
          constraints := [], filters := [] }]]]
      (iterationContexts [("data-page", "contracts as contract")] "contract"
        [.obj [("customer", .str "One")], .obj [("customer", .str "Two")]]
        { data := c5data, aliases := [], timezone := "UTC" }) =
      .ok ["<section><p>One</p></section>", "<section><p>Two</p></section>"] := by
    rw [c5_contexts]
    exact c5instances
  have h := renderIteratedElement_ok "section" [("data-page", "contracts as contract")]
    [.elem "p" [] [.text [.interpolation
      { path := "contract.customer", dataType := .string, nullable := false,
        constraints := [], filters := [] }]]] "contracts as contract"
    { data := c5data, aliases := [], timezone := "UTC" } "contracts" "contract"
    [.obj [("customer", .str "One")], .obj [("customer", .str "Two")]]
    ["<section><p>One</p></section>", "<section><p>Two</p></section>"]
    (by decide) (by decide) h3
  rw [h]
  rfl

/-- The C5 section element as a whole dispatches to the iterated path and
renders the two joined sections. -/
theorem c5root :
    renderElement "section" [("data-page", "contracts as contract")]
      [.elem "p" [] [.text [.interpolation
        { path := "contract.customer", dataType := .string, nullable := false,
          constraints := [], filters := [] }]]]
      { data := c5data, aliases := [], timezone := "UTC" } =
      .ok "<section><p>One</p></section><section><p>Two</p></section>" := by
  rw [renderElement_page _ _ _ _ "contracts as contract" (by decide) (by decide)]
  exact c5iterlem

/-- Claim C5 (code bug): rendering a full document whose body is a `data-page`
iteration over two items emits two identical bare `section` instances — the
exact output contains no `style` attribute and hence no `page-break-after`
style on the non-last instance, and the control attribute itself contributes
no rendered attribute at all, although the repository's own
DSL_SPECIFICATION.md and DSL_PROMPT.md document an implicit
`data-break-after="page"` on non-last page instances. -/
theorem c5_no_implicit_page_break :
    renderAst "html" [] [c5section] c5data {} =
      .ok "<html><section><p>One</p></section><section><p>Two</p></section></html>" ∧
    buildRenderedAttributes [("data-page", "contracts as contract")] = "" := by
  refine ⟨?_, by decide⟩
  have hctx : (({} : RenderOptions).timezone.getD
      (collectGlobalConfig (.elem "html" [] [c5section])).timezone) = "UTC" := by decide
  rw [renderAst]
  simp only [hctx]
  have hch : renderChildren [c5section]
      { data := c5data, aliases := [], timezone := "UTC" } =
      .ok "<section><p>One</p></section><section><p>Two</p></section>" := by
    have h := renderChildren_cons_ok c5section []
      { data := c5data, aliases := [], timezone := "UTC" }
      "<section><p>One</p></section><section><p>Two</p></section>" ""
      (by rw [c5section, renderNode_elem]; exact c5root)
      (renderChildren_nil _)
    rw [h]
    rfl
  rw [renderElement_plain _ _ _ _ (by decide) (by decide),
    renderElementOnce_noif _ _ _ _ (by decide),
    renderElementBody_ok _ _ _ _ _ (by decide) (by decide) hch]
  rfl

/-! ### Claim C6 -/

/-- Claim C6 (code bug): an iteration attribute value that omits the
`as aliasName` clause does not parse with a default alias — the shared
`parseIterationExpression` throws `Invalid iteration expression` for a bare
source path, for the repeat-level and the page-level attribute alike,
although the repository's own DSL_SPECIFICATION.md and DSL_PROMPT.md document
default aliases (`item` / `page`). -/
theorem c6_bare_iteration_path_throws :
    parseIterationExpression "items" = .error "Invalid iteration expression: items" ∧
    parseIterationExpression "contracts" =
      .error "Invalid iteration expression: contracts" ∧
    renderElement "li" [("data-repeat", "items")] []
      { data := [("items", .arr [])], aliases := [], timezone := "UTC" } =
      .error "Invalid iteration expression: items" ∧
    renderElement "section" [("data-page", "contracts")] []
      { data := [("contracts", .arr [])], aliases := [], timezone := "UTC" } =
      .error "Invalid iteration expression: contracts" := by
  refine ⟨by decide, by decide, ?_, ?_⟩
  · rw [renderElement_repeat _ _ _ _ "items" (by decide) (by decide) (by decide)]
    exact renderIteratedElement_err _ _ _ _ _ _ (by decide)
  · rw [renderElement_page _ _ _ _ "contracts" (by decide) (by decide)]
    exact renderIteratedElement_err _ _ _ _ _ _ (by decide)

/-- Claim C7: with a non-empty `data-if` attribute, `renderElementOnce` skips
the element and its entire subtree (returns empty markup, evaluating nothing
below it) exactly when the resolved value is JavaScript-falsy, and renders the
element body for any other value; the falsy set is exactly
`false, 0, -0, NaN, "", null, undefined`. -/
theorem c7_conditional_falsy_set (tagName : String) (attributes : List (String × String))
    (children : List DslNode) (context : RenderContext) (condPath : String)
    (hAttr : (assocGet? attributes "data-if").getD "" = condPath) (hNe : condPath ≠ "") :
    (jsTruthyV (getByPath context.data context.aliases condPath) = false →
      renderElementOnce tagName attributes children context = .ok "") ∧
    (jsTruthyV (getByPath context.data context.aliases condPath) = true →
      renderElementOnce tagName attributes children context =
        renderElementBody tagName attributes children context) ∧
    (∀ v : Value, jsTruthyV v = false ↔
      (v = .bool false ∨ v = .num (.rat 0) ∨ v = .num .negZero ∨ v = .num .nan ∨
       v = .str "" ∨ v = .null ∨ v = .undef)) := by
  refine ⟨?_, ?_, ?_⟩
  · intro hFalse
    rw [renderElementOnce, hAttr, if_pos ⟨hNe, hFalse⟩]
  · intro hTrue
    rw [renderElementOnce, hAttr, if_neg]
    intro hcon
    rw [hTrue] at hcon
    exact absurd hcon.2 (by simp)
  · intro v
    cases v with
    | num n => cases n <;> simp [jsTruthyV, jsNumTruthy]
    | _ => simp [jsTruthyV]

/-- Witness for C7 at a concrete input: `data-if="flag"` with `flag = 0`
skips, and the falsy-set characterization holds. -/
theorem c7_witness :
    (jsTruthyV (getByPath [("flag", .num (.rat 0))] [] "flag") = false →
      renderElementOnce "div" [("data-if", "flag")] []
        { data := [("flag", .num (.rat 0))], aliases := [], timezone := "UTC" } = .ok "") ∧
    (jsTruthyV (getByPath [("flag", .num (.rat 0))] [] "flag") = true →
      renderElementOnce "div" [("data-if", "flag")] []
        { data := [("flag", .num (.rat 0))], aliases := [], timezone := "UTC" } =
        renderElementBody "div" [("data-if", "flag")] []
          { data := [("flag", .num (.rat 0))], aliases := [], timezone := "UTC" }) ∧
    (∀ v : Value, jsTruthyV v = false ↔
      (v = .bool false ∨ v = .num (.rat 0) ∨ v = .num .negZero ∨ v = .num .nan ∨
       v = .str "" ∨ v = .null ∨ v = .undef)) :=
  c7_conditional_falsy_set "div" [("data-if", "flag")] []
    { data := [("flag", .num (.rat 0))], aliases := [], timezone := "UTC" } "flag"
    (by decide) (by decide)

/-- A lookup that continues from `undefined` stays `undefined`. -/
theorem getByPathCursor_undef (rest : List String) : getByPathCursor .undef rest = .undef := by
  cases rest <;> simp [getByPathCursor]

/-- Claim C1: for an iterated element whose source resolves to an array of
`N = xs.length` items, with parsed max-rows `M` (`∞` when absent) and
fixed-rows `F` (`0` when absent), the renderer emits exactly
`max(min(N, M), F)` instances (`effLen` is `min(N, M)`): the rendered output
joins the per-instance pieces, the number of pieces equals
`max (effLen N M) F`, each loop context below `effLen N M` binds the alias to
the corresponding source item and every padding context binds it to the empty
object, and any nested lookup through the empty object resolves to
`undefined` rather than raising. -/
theorem c1_row_count_law (t : String) (a : List (String × String)) (ch : List DslNode)
    (e : String) (ctx : RenderContext) (p al : String) (xs : List Value)
    (M : Option Nat) (F : Nat) (pieces : List String)
    (hM : maxCountOf a = (match M with | none => JsNum.posInf | some m => JsNum.rat m))
    (hF : fixedCountOf a = .rat F)
    (hal1 : al ≠ "$index") (hal2 : al ≠ "$page")
    (h1 : parseIterationExpression e = .ok (p, al))
    (h2 : getByPath ctx.data ctx.aliases p = .arr xs)
    (h3 : renderInstances t a ch (iterationContexts a al xs ctx) = .ok pieces) :
    renderIteratedElement t a ch e ctx = .ok (joinSep "" pieces) ∧
    pieces.length = max (effLen xs.length M) F ∧
    (∀ (i : Nat) (c : RenderContext), (iterationContexts a al xs ctx)[i]? = some c →
      assocGet? c.aliases al =
        some (if i < effLen xs.length M then xs.getD i .undef else .obj [])) ∧
    (∀ (key : String) (rest : List String),
      getByPathCursor (.obj []) (key :: rest) = .undef) := by
  refine ⟨renderIteratedElement_ok t a ch e ctx p al xs pieces h1 h2 h3, ?_, ?_, ?_⟩
  · rw [renderInstances_length t a ch _ pieces h3,
      iterationContexts_eq a al xs ctx M F hM hF, List.length_map, List.length_range]
  · intro i c h4
    rw [iterationContexts_eq a al xs ctx M F hM hF, List.getElem?_map] at h4
    cases hr : (List.range (max (effLen xs.length M) F))[i]? with
    | none =>
      rw [hr] at h4
      simp at h4
    | some j =>
      have hi : i < max (effLen xs.length M) F := by
        by_contra hcon
        rw [List.getElem?_eq_none (by simpa using Nat.le_of_not_lt hcon)] at hr
        cases hr
      have hj : j = i := by
        rw [List.getElem?_range hi] at hr
        exact (Option.some.inj hr).symm
      subst hj
      rw [hr, Option.map_some'] at h4
      cases h4
      simp only []
      rw [assocGet_assocSet_ne _ _ _ _ hal2, assocGet_assocSet_ne _ _ _ _ hal1,
        assocGet_assocSet_self]
  · intro key rest
    simp [getByPathCursor, assocGet?, getByPathCursor_undef]

/-- Witness for C1 at a concrete input: `data-repeat="items as it"` over a
one-item array with no max-rows and no fixed-rows renders one instance. -/
theorem c1_witness :
    renderIteratedElement "div" [] [] "items as it"
      { data := [("items", .arr [.null])], aliases := [], timezone := "UTC" } =
      .ok (joinSep "" ["<div></div>"]) ∧
    (["<div></div>"] : List String).length = max (effLen ([Value.null].length) none) 0 ∧
    (∀ (i : Nat) (c : RenderContext),
      (iterationContexts [] "it" [.null]
        { data := [("items", .arr [.null])], aliases := [], timezone := "UTC" })[i]? =
        some c →
      assocGet? c.aliases "it" =
        some (if i < effLen ([Value.null].length) none then [Value.null].getD i .undef
          else .obj [])) ∧
    (∀ (key : String) (rest : List String),
      getByPathCursor (.obj []) (key :: rest) = .undef) := by
  have hctxs : iterationContexts [] "it" [.null]
      { data := [("items", .arr [.null])], aliases := [], timezone := "UTC" } =
      [{ data := [("items", .arr [.null])],
         aliases := [("it", .null), ("$index", .num (.rat 0)),
                     ("$page", .obj [("index", .num (.rat 0)), ("number", .num (.rat 1)),
                                     ("count", .num (.rat 1))])],
         timezone := "UTC" }] := by
    rw [iterationContexts_eq _ _ _ _ none 0 (by decide) (by decide)]
    simp [effLen, List.range_succ, assocSet]
  have h3 : renderInstances "div" [] []
      (iterationContexts [] "it" [.null]
        { data := [("items", .arr [.null])], aliases := [], timezone := "UTC" }) =
      .ok ["<div></div>"] := by
    rw [hctxs]
    refine renderInstances_cons_ok _ _ _ _ _ _ _ ?_ (renderInstances_nil _ _ _)
    rw [renderElementOnce_noif _ _ _ _ (by decide),
      renderElementBody_ok _ _ _ _ "" (by decide) (by decide) (renderChildren_nil _)]
    rfl
  exact c1_row_count_law "div" [] [] "items as it"
    { data := [("items", .arr [.null])], aliases := [], timezone := "UTC" }
    "items" "it" [.null] none 0 ["<div></div>"]
    rfl rfl (by decide) (by decide) (by decide) (by decide) h3

/-- Claim C10 (implicit): each loop context binds the `$index` companion to
the 0-based instance index and the `$page` companion to an object with
`index`, `number = index + 1` and `count = max (effLen N M) F` (the total
instance count including padding rows); the loop contexts do not depend on
whether the iteration was introduced by `data-page` or `data-repeat`, and
both attributes dispatch to the same iterated-rendering path. -/
theorem c10_companion_bindings (a : List (String × String)) (al : String)
    (xs : List Value) (ctx : RenderContext) (M : Option Nat) (F : Nat)
    (hM : maxCountOf a = (match M with | none => JsNum.posInf | some m => JsNum.rat m))
    (hF : fixedCountOf a = .rat F) :
    (∀ (i : Nat) (c : RenderContext), (iterationContexts a al xs ctx)[i]? = some c →
      assocGet? c.aliases "$index" = some (.num (.rat i)) ∧
      assocGet? c.aliases "$page" = some (.obj
        [("index", .num (.rat i)), ("number", .num (.rat (i + 1))),
         ("count", .num (.rat (((max (effLen xs.length M) F : Nat)) : ℚ)))])) ∧
    (∀ (e : String) (rest : List (String × String)),
      iterationContexts (("data-page", e) :: rest) al xs ctx =
        iterationContexts (("data-repeat", e) :: rest) al xs ctx) ∧
    (∀ (t : String) (ch : List DslNode) (ctx2 : RenderContext) (e : String), e ≠ "" →
      renderElement t (("data-page", e) :: a) ch ctx2 =
        renderIteratedElement t (("data-page", e) :: a) ch e ctx2) ∧
    (∀ (t : String) (ch : List DslNode) (ctx2 : RenderContext) (e : String), e ≠ "" →
      assocGet? a "data-page" = none →
      renderElement t (("data-repeat", e) :: a) ch ctx2 =
        renderIteratedElement t (("data-repeat", e) :: a) ch e ctx2) := by
  refine ⟨?_, ?_, ?_, ?_⟩
  · intro i c h4
    rw [iterationContexts_eq a al xs ctx M F hM hF, List.getElem?_map] at h4
    cases hr : (List.range (max (effLen xs.length M) F))[i]? with
    | none =>
      rw [hr] at h4
      simp at h4
    | some j =>
      have hi : i < max (effLen xs.length M) F := by
        by_contra hcon
        rw [List.getElem?_eq_none (by simpa using Nat.le_of_not_lt hcon)] at hr
        cases hr
      have hj : j = i := by
        rw [List.getElem?_range hi] at hr
        exact (Option.some.inj hr).symm
      subst hj
      rw [hr, Option.map_some'] at h4
      cases h4
      constructor
      · simp only []
        rw [assocGet_assocSet_ne _ _ _ _ (by decide), assocGet_assocSet_self]
      · simp only []
        rw [assocGet_assocSet_self]
  · intro e rest
    simp [iterationContexts, maxCountOf, fixedCountOf, assocGet?]
  · intro t ch ctx2 e he
    exact renderElement_page t _ ch ctx2 e (by simp [assocGet?]) he
  · intro t ch ctx2 e he h0
    exact renderElement_repeat t _ ch ctx2 e (by simp [assocGet?, h0])
      (by simp [assocGet?]) he

/-- Witness for C10 at a concrete input: an attribute list with no row
bounds over a one-item array. -/
theorem c10_witness :
    (∀ (i : Nat) (c : RenderContext),
      (iterationContexts [] "it" [.null]
        { data := [], aliases := [], timezone := "UTC" })[i]? = some c →
      assocGet? c.aliases "$index" = some (.num (.rat i)) ∧
      assocGet? c.aliases "$page" = some (.obj
        [("index", .num (.rat i)), ("number", .num (.rat (i + 1))),
         ("count", .num (.rat (((max (effLen ([Value.null].length) none) 0 : Nat)) : ℚ)))])) ∧
    (∀ (e : String) (rest : List (String × String)),
      iterationContexts (("data-page", e) :: rest) "it" [.null]
        { data := [], aliases := [], timezone := "UTC" } =
        iterationContexts (("data-repeat", e) :: rest) "it" [.null]
          { data := [], aliases := [], timezone := "UTC" }) ∧
    (∀ (t : String) (ch : List DslNode) (ctx2 : RenderContext) (e : String), e ≠ "" →
      renderElement t [("data-page", e)] ch ctx2 =
        renderIteratedElement t [("data-page", e)] ch e ctx2) ∧
    (∀ (t : String) (ch : List DslNode) (ctx2 : RenderContext) (e : String), e ≠ "" →
      assocGet? ([] : List (String × String)) "data-page" = none →
      renderElement t [("data-repeat", e)] ch ctx2 =
        renderIteratedElement t [("data-repeat", e)] ch e ctx2) :=
  c10_companion_bindings [] "it" [.null]
    { data := [], aliases := [], timezone := "UTC" } none 0 rfl rfl

/-- The C4 template: `\x7b\x7b item.name:string \x7d\x7d` inside
`data-repeat="contract.items as item"` inside
`data-page="contracts as contract"`. -/
def c4tree : DslNode :=
  .elem "html" []
    [.elem "section" [("data-page", "contracts as contract")]
      [.elem "li" [("data-repeat", "contract.items as item")]
        [.text [.interpolation
          { path := "item.name", dataType := .string, nullable := false,
            constraints := [], filters := [] }]]]]

/-- Claim C4: compiling the nested-iteration template produces a schema in
which `contracts` is a required array property whose item schema is an object
with a required array property `items`, whose item schema in turn is an
object with a required property `name` of type string. -/
theorem c4_nested_iteration_schema :
    extractSchemaFromAst c4tree {} = .ok (.obj
      [("$schema", .str "https://json-schema.org/draft/2020-12/schema"),
       ("properties", .obj
         [("contracts", .obj
           [("items", .obj
             [("properties", .obj
               [("items", .obj
                 [("items", .obj
                   [("properties", .obj [("name", .obj [("type", .str "string")])]),
                    ("required", .arr [.str "name"]),
                    ("type", .str "object")]),
                  ("type", .str "array")])]),
              ("required", .arr [.str "items"]),
              ("type", .str "object")]),
            ("type", .str "array")])]),
       ("required", .arr [.str "contracts"]),
       ("type", .str "object")]) := by
  have hp1 : parseIterationExpression "contracts as contract" =
      .ok ("contracts", "contract") := by decide
  have hp2 : parseIterationExpression "contract.items as item" =
      .ok ("contract.items", "item") := by decide
  simp [hp1, hp2, extractSchemaFromAst, c4tree, collectGlobalConfig, collectCfgNode,
    collectCfgForest, defaultGlobalConfig, collectMetaSemantics, collectMetaAux, nodeCount,
    forestCount, buildInlineSemantic, metaUpdate, walkNode, walkForest, iterStep,
    applySegment, applyInterpolationSchema, ensureArrayPath, ensurePathNode, splitPart,
    objMerge, getProps, ensureProps, pushRequired, fieldsOf, emptyObjSchema,
    defaultArrayFields, mapTypeToSchema, buildFieldSchema, constraintApply, getFieldSchema,
    getFieldSchemaParts, modifyFieldSchemaParts, applySemantic, resolvePathWithAliases,
    normalizePath, trimChars, jsTrim, splitOnChar, jsSplitChar, stableSortObject,
    stableSortFuel, jsonDepth, jsonDepthL, jsonDepthF, sortReqLe, keyLe, strLe, charListLe,
    sortByLe, insertSorted, jsonToString, jsonArrToStrings, joinComma, jsNumToString,
    splitExamples, jsSplitStr, splitOnStrChars, initialSchema, assocGet?, assocSet,
    assocHas, joinDot, isIdentStart, jsEndsWith, endsWithChars, dropRightStr,
    DataType.name]

/-- Counterexample to Claim C8 as stated: the parser accepts
`\x7b\x7b amount:number | fixed:-1 \x7d\x7d`, the path `amount` is absent from the
data, and rendering the segment raises the `toFixed` RangeError — so
rendering can raise for absent data. -/
theorem c8_counterexample :
    parseTextSegments "\x7b\x7b amount:number | fixed:-1 \x7d\x7d" = .ok
      [.interpolation
        { path := "amount", dataType := .number, nullable := false,
          constraints := [], filters := [{ name := "fixed", args := ["-1"] }] }] ∧
    getByPath [] [] "amount" = .undef ∧
    renderSegments { data := [], aliases := [], timezone := "UTC" }
      [.interpolation
        { path := "amount", dataType := .number, nullable := false,
          constraints := [], filters := [{ name := "fixed", args := ["-1"] }] }] =
      .error "RangeError: toFixed() digits argument must be between 0 and 100" := by
  refine ⟨by decide, by decide, ?_⟩
  simp [renderSegments, renderSegment, getByPath, normalizePath, jsSplitChar, splitOnChar,
    assocHas, assocGet?, getByPathCursor, applyFilters, applySingleFilter, isNullish,
    parseNumStr, parseDecimalBody, jsToNumber, jsIsFinite, toFixedDigits, ratTruncZ,
    trimChars, dropLeadSpace, jsIsSpace, digitsToNat, Filter.name, Filter.args]

/-- Claim C8, amended: when an interpolation's path resolves to a nullish
value, degradation — not an error — is what the pieces provide: lookups
through non-object values yield `undefined` rather than raising, the nullish
value reaches the filter chain unchanged so a `default` filter substitutes
its replacement, a filterless segment renders as empty text, and whenever the
filter chain returns a still-nullish value the segment renders as empty text.
(The unamended claim — rendering never raises for absent data — is false: a
filter such as `fixed:-1` raises its RangeError even on absent data, see the
counterexample.) -/
theorem c8_absent_data_degrades (context : RenderContext) (seg : InterpolationSegment)
    (hnull : isNullish (getByPath context.data context.aliases seg.path) = true) :
    (∀ (v : Value) (key : String) (rest : List String),
      isPlainObjectV v = false → (∀ xs, v ≠ .arr xs) →
      getByPathCursor v (key :: rest) = .undef) ∧
    (∀ (a : String) (fc : FilterContext),
      applySingleFilter (getByPath context.data context.aliases seg.path)
        { name := "default", args := [a] } fc = .ok (.str a)) ∧
    (seg.filters = [] → renderSegment context (.interpolation seg) = .ok "") ∧
    (∀ v2 : Value,
      applyFilters (getByPath context.data context.aliases seg.path) seg.filters
        { dataType := some seg.dataType, timezone := some context.timezone } = .ok v2 →
      isNullish v2 = true →
      renderSegment context (.interpolation seg) = .ok "") := by
  refine ⟨?_, ?_, ?_, ?_⟩
  · intro v key rest hobj harr
    cases v with
    | obj fs => simp [isPlainObjectV] at hobj
    | arr xs => exact absurd rfl (harr xs)
    | _ => simp [getByPathCursor]
  · intro a fc
    simp [applySingleFilter, hnull]
  · intro hf
    simp [renderSegment, hf, applyFilters, hnull]
  · intro v2 hap hn
    simp [renderSegment, hap, hn]

/-- Witness for C8 at a concrete input: the absent path `amount` over empty
data. -/
theorem c8_witness :
    (∀ (v : Value) (key : String) (rest : List String),
      isPlainObjectV v = false → (∀ xs, v ≠ .arr xs) →
      getByPathCursor v (key :: rest) = .undef) ∧
    (∀ (a : String) (fc : FilterContext),
      applySingleFilter (getByPath [] [] "amount")
        { name := "default", args := [a] } fc = .ok (.str a)) ∧
    (InterpolationSegment.filters
        { path := "amount", dataType := .number, nullable := false,
          constraints := [], filters := [] } = [] →
      renderSegment { data := [], aliases := [], timezone := "UTC" }
        (.interpolation
          { path := "amount", dataType := .number, nullable := false,
            constraints := [], filters := [] }) = .ok "") ∧
    (∀ v2 : Value,
      applyFilters (getByPath [] [] "amount") []
        { dataType := some DataType.number, timezone := some "UTC" } = .ok v2 →
      isNullish v2 = true →
      renderSegment { data := [], aliases := [], timezone := "UTC" }
        (.interpolation
          { path := "amount", dataType := .number, nullable := false,
            constraints := [], filters := [] }) = .ok "") :=
  c8_absent_data_degrades { data := [], aliases := [], timezone := "UTC" }
    { path := "amount", dataType := .number, nullable := false,
      constraints := [], filters := [] } (by decide)

def reqOf (n : JObj) : List Json :=
  match assocGet? n "required" with
  | some (Json.arr xs) => xs
  | _ => []

def navStep (n : JObj) (part : String) : JObj :=
  let pk := splitPart part
  let child : JObj :=
    match assocGet? (getProps n) pk.1 with | some (Json.obj fs) => fs | _ => []
  if pk.2 then
    (match assocGet? child "items" with | some (Json.obj fs) => fs | _ => [])
  else child

def descendTarget (node : JObj) (part : String) : JObj :=
  let pk := splitPart part
  let props := getProps node
  if pk.2 then
    let arrNode : JObj :=
      match assocGet? props pk.1 with | some (Json.obj fs) => fs | _ => defaultArrayFields
    let arrNode1 :=
      match assocGet? arrNode "items" with
      | some it => if jsonTruthy it then arrNode else assocSet arrNode "items" emptyObjSchema
      | none => assocSet arrNode "items" emptyObjSchema
    match assocGet? arrNode1 "items" with | some (Json.obj fs) => fs | _ => []
  else
    match assocGet? props pk.1 with | some (Json.obj fs) => fs | _ => fieldsOf emptyObjSchema

theorem reqOf_assocSet_props (n : JObj) (v : Json) :
    reqOf (assocSet n "properties" v) = reqOf n := by
  simp only [reqOf, assocGet_assocSet_ne _ _ _ _ (by decide : "required" ≠ "properties")]

theorem getProps_assocSet_req (n : JObj) (v : Json) :
    getProps (assocSet n "required" v) = getProps n := by
  simp only [getProps, assocGet_assocSet_ne _ _ _ _ (by decide : "properties" ≠ "required")]

theorem getProps_pushRequired (n : JObj) (k : String) :
    getProps (pushRequired n k) = getProps n := by
  rw [pushRequired]
  split <;> rw [getProps_assocSet_req]

theorem getProps_ensureProps (n : JObj) : getProps (ensureProps n) = getProps n := by
  simp only [ensureProps, getProps, assocGet_assocSet_self]

theorem pushRequired_mem (n : JObj) (k : String) :
    Json.str k ∈ reqOf (pushRequired n k) := by
  rw [pushRequired]
  split
  · next hmem => simp only [reqOf, assocGet_assocSet_self]; exact hmem
  · simp only [reqOf, assocGet_assocSet_self]
    exact List.mem_append_right _ (List.mem_singleton.mpr rfl)

theorem c9_push (node : JObj) (part : String) (rest : List String)
    (leafSchema : JObj) (required : Bool) (hrest : rest ≠ []) :
    Json.str (splitPart part).1 ∈
      reqOf (ensurePathNode node (part :: rest) leafSchema required) := by
  have hne : rest.isEmpty = false := by
    cases rest with
    | nil => exact absurd rfl hrest
    | cons a b => rfl
  simp only [ensurePathNode, hne, Bool.false_eq_true, if_false]
  split
  · exact pushRequired_mem _ _
  · exact pushRequired_mem _ _

theorem getProps_setProps (n : JObj) (fs : JObj) :
    getProps (assocSet n "properties" (.obj fs)) = fs := by
  simp only [getProps, assocGet_assocSet_self]

theorem c9_nav (node : JObj) (part : String) (rest : List String)
    (leafSchema : JObj) (required : Bool) (hrest : rest ≠ []) :
    navStep (ensurePathNode node (part :: rest) leafSchema required) part =
      ensurePathNode (descendTarget node part) rest leafSchema required := by
  have hne : rest.isEmpty = false := by
    cases rest with
    | nil => exact absurd rfl hrest
    | cons a b => rfl
  cases hA : (splitPart part).2 with
  | false =>
    simp only [ensurePathNode, hne, Bool.false_eq_true, if_false, hA, navStep, descendTarget,
      getProps_pushRequired, getProps_setProps, getProps_ensureProps, assocGet_assocSet_self,
      ite_false, ite_true, if_false, if_true]
  | true =>
    simp only [ensurePathNode, hne, Bool.false_eq_true, if_false, hA, navStep, descendTarget,
      getProps_pushRequired, getProps_setProps, getProps_ensureProps, assocGet_assocSet_self,
      ite_false, ite_true, if_false, if_true]

theorem c9_leaf_true (node : JObj) (part : String) (leafSchema : JObj) :
    Json.str (splitPart part).1 ∈ reqOf (ensurePathNode node [part] leafSchema true) := by
  simp only [ensurePathNode, List.isEmpty_nil, if_true]
  exact pushRequired_mem _ _

theorem c9_leaf_false (node : JObj) (part : String) (leafSchema : JObj) :
    reqOf (ensurePathNode node [part] leafSchema false) = reqOf node := by
  simp only [ensurePathNode, List.isEmpty_nil, if_true, Bool.false_eq_true, if_false,
    reqOf_assocSet_props, ensureProps]

/-- Claim C9 (implicit): in `ensurePathNode` — the single function through
which every interpolation path enters the schema — each intermediate path
part is pushed onto its parent's `required` list whether or not the leaf is
required (`rest ≠ []` cases, both flag values), and the recursion below an
intermediate is the same ensure operation on the child node, so the invariant
propagates along the whole path; only the leaf part's membership depends on
the flag: a required leaf is pushed, a nullable (non-required) leaf leaves
the parent's `required` list exactly as it was. -/
theorem c9_intermediates_unconditionally_required :
    (∀ (node : JObj) (part : String) (rest : List String) (leafSchema : JObj)
        (required : Bool), rest ≠ [] →
      Json.str (splitPart part).1 ∈
        reqOf (ensurePathNode node (part :: rest) leafSchema required) ∧
      navStep (ensurePathNode node (part :: rest) leafSchema required) part =
        ensurePathNode (descendTarget node part) rest leafSchema required) ∧
    (∀ (node : JObj) (part : String) (leafSchema : JObj),
      Json.str (splitPart part).1 ∈ reqOf (ensurePathNode node [part] leafSchema true)) ∧
    (∀ (node : JObj) (part : String) (leafSchema : JObj),
      reqOf (ensurePathNode node [part] leafSchema false) = reqOf node) :=
  ⟨fun node part rest leafSchema required hrest =>
    ⟨c9_push node part rest leafSchema required hrest,
     c9_nav node part rest leafSchema required hrest⟩,
   c9_leaf_true, c9_leaf_false⟩

/-- The sortedness relation insertion sort establishes between neighbours:
`b` is not strictly below `a`. -/
def okP {α : Type} (le : α → α → Bool) (a b : α) : Prop := le b a = false ∨ le a b = true

theorem mem_insertSorted {α : Type} (le : α → α → Bool) (x a : α) (l : List α) :
    a ∈ insertSorted le x l ↔ a = x ∨ a ∈ l := by
  induction l with
  | nil => simp [insertSorted]
  | cons y ys ih =>
    rw [insertSorted]
    split
    · simp only [List.mem_cons, ih]
      tauto
    · simp only [List.mem_cons]

theorem mem_sortByLe {α : Type} (le : α → α → Bool) (a : α) (l : List α) :
    a ∈ sortByLe le l ↔ a ∈ l := by
  induction l with
  | nil => simp [sortByLe]
  | cons x xs ih => simp [sortByLe, mem_insertSorted, ih]

theorem perm_insertSorted {α : Type} (le : α → α → Bool) (x : α) (l : List α) :
    (insertSorted le x l).Perm (x :: l) := by
  induction l with
  | nil => exact List.Perm.refl _
  | cons y ys ih =>
    rw [insertSorted]
    split
    · exact (ih.cons y).trans (List.Perm.swap x y ys)
    · exact List.Perm.refl _

theorem perm_sortByLe {α : Type} (le : α → α → Bool) (l : List α) :
    (sortByLe le l).Perm l := by
  induction l with
  | nil => exact List.Perm.refl _
  | cons x xs ih =>
    rw [sortByLe]
    exact (perm_insertSorted le x _).trans (ih.cons x)

theorem chain_insertSorted {α : Type} (le : α → α → Bool) (x : α) (l : List α)
    (h : l.Chain' (okP le)) : (insertSorted le x l).Chain' (okP le) := by
  induction l with
  | nil => simp [insertSorted]
  | cons y ys ih =>
    rw [insertSorted]
    split
    · next hcond =>
      have hyx : le y x = true := by
        simp only [Bool.and_eq_true] at hcond
        exact hcond.1
      have htail := ih h.tail
      rw [List.chain'_cons']
      refine ⟨?_, htail⟩
      intro b hb
      cases ys with
      | nil =>
        rw [insertSorted] at hb
        simp at hb
        subst hb
        exact Or.inr hyx
      | cons z zs =>
        rw [insertSorted] at hb
        split at hb
        · simp at hb
          subst hb
          exact (List.chain'_cons.mp h).1
        · simp at hb
          subst hb
          exact Or.inr hyx
    · next hcond =>
      rw [List.chain'_cons']
      refine ⟨?_, h⟩
      intro b hb
      simp at hb
      subst hb
      cases hxy : le x y with
      | true => exact Or.inr hxy
      | false =>
        cases hyx : le y x with
        | false => exact Or.inl hyx
        | true => exact absurd (by rw [hyx, hxy]; rfl) hcond

theorem chain_sortByLe {α : Type} (le : α → α → Bool) (l : List α) :
    (sortByLe le l).Chain' (okP le) := by
  induction l with
  | nil => simp [sortByLe]
  | cons x xs ih =>
    rw [sortByLe]
    exact chain_insertSorted le x _ ih

theorem sortByLe_eq_of_chain {α : Type} (le : α → α → Bool) (l : List α)
    (h : l.Chain' (okP le)) : sortByLe le l = l := by
  induction l with
  | nil => rfl
  | cons x xs ih =>
    rw [sortByLe, ih h.tail]
    cases xs with
    | nil => rfl
    | cons y ys =>
      have hxy : okP le x y := (List.chain'_cons.mp h).1
      rw [insertSorted, if_neg]
      intro hcon
      simp only [Bool.and_eq_true, Bool.not_eq_true'] at hcon
      rcases hxy with h3 | h3
      · rw [h3] at hcon
        exact Bool.noConfusion hcon.1
      · rw [h3] at hcon
        exact Bool.noConfusion hcon.2

theorem sortByLe_idem {α : Type} (le : α → α → Bool) (l : List α) :
    sortByLe le (sortByLe le l) = sortByLe le l :=
  sortByLe_eq_of_chain le _ (chain_sortByLe le l)

theorem jsonDepthF_cons (p : String × Json) (fs : List (String × Json)) :
    jsonDepthF (p :: fs) = max (jsonDepth p.2) (jsonDepthF fs) := by
  obtain ⟨k, v⟩ := p
  rfl

theorem depthF_perm (l1 l2 : List (String × Json)) (h : l1.Perm l2) :
    jsonDepthF l1 = jsonDepthF l2 := by
  induction h with
  | nil => rfl
  | cons kv _ ih => simp [jsonDepthF_cons, ih]
  | swap a b l => simp only [jsonDepthF_cons]; omega
  | trans _ _ ih1 ih2 => exact ih1.trans ih2

theorem depthL_perm (l1 l2 : List Json) (h : l1.Perm l2) :
    jsonDepthL l1 = jsonDepthL l2 := by
  induction h with
  | nil => rfl
  | cons v _ ih => simp [jsonDepthL, ih]
  | swap a b l => simp only [jsonDepthL]; omega
  | trans _ _ ih1 ih2 => exact ih1.trans ih2

theorem depthF_mem_le (l : List (String × Json)) (kv : String × Json) (h : kv ∈ l) :
    jsonDepth kv.2 ≤ jsonDepthF l := by
  induction l with
  | nil => cases h
  | cons hd tl ih =>
    rcases List.mem_cons.mp h with h1 | h1
    · subst h1
      simp only [jsonDepthF_cons]
      omega
    · have := ih h1
      simp only [jsonDepthF_cons]
      omega

theorem depthL_mem_le (l : List Json) (v : Json) (h : v ∈ l) :
    jsonDepth v ≤ jsonDepthL l := by
  induction l with
  | nil => cases h
  | cons hd tl ih =>
    rcases List.mem_cons.mp h with h1 | h1
    · subst h1
      simp only [jsonDepthL]
      omega
    · have := ih h1
      simp only [jsonDepthL]
      omega

theorem depthF_map_eq (l : List (String × Json)) (g : String × Json → String × Json)
    (hg : ∀ kv ∈ l, jsonDepth (g kv).2 = jsonDepth kv.2) :
    jsonDepthF (l.map g) = jsonDepthF l := by
  induction l with
  | nil => rfl
  | cons hd tl ih =>
    simp only [List.map_cons, jsonDepthF_cons]
    rw [hg hd (List.mem_cons_self _ _), ih (fun kv hkv => hg kv (List.mem_cons_of_mem _ hkv))]

/-- The transform `stableSortFuel` applies under a `required` key. -/
def sortReqNested (fuel : Nat) : Json → Json
  | .arr items => Json.arr (sortByLe sortReqLe items)
  | other => stableSortFuel fuel other

/-- The value component of the per-entry transform of `stableSortFuel` on
object fields. -/
def sortEntryVal (fuel : Nat) (k : String) (nested : Json) : Json :=
  if k = "required" then sortReqNested fuel nested
  else stableSortFuel fuel nested

/-- The per-entry transform of `stableSortFuel` on object fields (named form
of the lambda in the source's `stableSortObject`). -/
def sortEntry (fuel : Nat) (kv : String × Json) : String × Json :=
  (kv.1, sortEntryVal fuel kv.1 kv.2)

theorem sortEntryVal_req_arr (f : Nat) (items : List Json) :
    sortEntryVal f "required" (Json.arr items) = Json.arr (sortByLe sortReqLe items) := by
  simp [sortEntryVal, sortReqNested]

theorem sortEntryVal_req_notArr (f : Nat) (X : Json) (hnot : ∀ l, X ≠ Json.arr l) :
    sortEntryVal f "required" X = stableSortFuel f X := by
  cases X with
  | arr l => exact absurd rfl (hnot l)
  | null => simp [sortEntryVal, sortReqNested]
  | bool b => simp [sortEntryVal, sortReqNested]
  | str s => simp [sortEntryVal, sortReqNested]
  | num n => simp [sortEntryVal, sortReqNested]
  | obj fs => simp [sortEntryVal, sortReqNested]

theorem sortEntryVal_not_req (f : Nat) (k : String) (n : Json) (hk : ¬ k = "required") :
    sortEntryVal f k n = stableSortFuel f n := by
  simp only [sortEntryVal, if_neg hk]

theorem stableSortFuel_obj (fuel : Nat) (fields : JObj) :
    stableSortFuel (fuel + 1) (.obj fields) =
      .obj ((sortByLe keyLe fields).map (sortEntry fuel)) := by
  rw [stableSortFuel]
  congr 1
  apply List.map_congr_left
  intro kv _
  obtain ⟨k, n⟩ := kv
  by_cases hk : k = "required"
  · subst hk
    cases n <;> simp [sortEntry, sortEntryVal, sortReqNested]
  · simp [sortEntry, sortEntryVal, hk]

theorem sortEntry_fst (fuel : Nat) (kv : String × Json) : (sortEntry fuel kv).1 = kv.1 := rfl

theorem keyLe_sortEntry (fuel : Nat) (a b : String × Json) :
    keyLe (sortEntry fuel a) (sortEntry fuel b) = keyLe a b := rfl

theorem ssf_not_arr (n : Json) (hn : ∀ l, n ≠ Json.arr l) (f : Nat) :
    ∀ l, stableSortFuel f n ≠ Json.arr l := by
  cases f with
  | zero =>
    intro l h
    rw [stableSortFuel] at h
    exact hn l h
  | succ f =>
    cases n with
    | arr l2 => exact absurd rfl (hn l2)
    | null => intro l h; simp [stableSortFuel] at h
    | bool b => intro l h; simp [stableSortFuel] at h
    | str s => intro l h; simp [stableSortFuel] at h
    | num q => intro l h; simp [stableSortFuel] at h
    | obj fs => intro l h; simp [stableSortFuel] at h

theorem sortEntry_depth (fuel : Nat) (kv : String × Json)
    (hd : ∀ v, jsonDepth v < fuel → jsonDepth (stableSortFuel fuel v) = jsonDepth v)
    (hkv : jsonDepth kv.2 < fuel) :
    jsonDepth (sortEntry fuel kv).2 = jsonDepth kv.2 := by
  obtain ⟨k, n⟩ := kv
  show jsonDepth (sortEntryVal fuel k n) = jsonDepth n
  by_cases hk : k = "required"
  · subst hk
    cases n with
    | arr items =>
      rw [sortEntryVal_req_arr]
      simp only [jsonDepth]
      rw [depthL_perm _ _ (perm_sortByLe sortReqLe items)]
    | null => rw [sortEntryVal_req_notArr _ _ (fun l h => Json.noConfusion h)]; exact hd _ hkv
    | bool b => rw [sortEntryVal_req_notArr _ _ (fun l h => Json.noConfusion h)]; exact hd _ hkv
    | str s => rw [sortEntryVal_req_notArr _ _ (fun l h => Json.noConfusion h)]; exact hd _ hkv
    | num q => rw [sortEntryVal_req_notArr _ _ (fun l h => Json.noConfusion h)]; exact hd _ hkv
    | obj fs => rw [sortEntryVal_req_notArr _ _ (fun l h => Json.noConfusion h)]; exact hd _ hkv
  · rw [sortEntryVal_not_req _ _ _ hk]
    exact hd _ hkv

theorem depth_stableSortFuel : ∀ (f : Nat) (v : Json), jsonDepth v < f →
    jsonDepth (stableSortFuel f v) = jsonDepth v := by
  intro f
  induction f with
  | zero => intro v hv; omega
  | succ f ih =>
    intro v hv
    cases v with
    | null => rfl
    | bool b => rfl
    | str s => rfl
    | num n => rfl
    | arr xs =>
      simp only [stableSortFuel, jsonDepth]
      simp only [jsonDepth] at hv
      have hmain : ∀ ys : List Json, jsonDepthL ys ≤ jsonDepthL xs →
          jsonDepthL (ys.map (stableSortFuel f)) = jsonDepthL ys := by
        intro ys
        induction ys with
        | nil => intro _; rfl
        | cons y t iht =>
          intro hle
          simp only [List.map_cons, jsonDepthL] at hle ⊢
          have h1 : jsonDepth y < f := by omega
          have h2 : jsonDepthL t ≤ jsonDepthL xs := by omega
          rw [ih y h1, iht h2]
      rw [hmain xs (le_refl _)]
    | obj fields =>
      rw [stableSortFuel_obj]
      simp only [jsonDepth] at hv ⊢
      have hfv : jsonDepthF fields < f := by omega
      rw [depthF_map_eq _ _ (fun kv hkv => by
        refine sortEntry_depth f kv ih ?_
        have hmem : kv ∈ fields := (mem_sortByLe _ _ _).mp hkv
        have := depthF_mem_le fields kv hmem
        omega)]
      rw [depthF_perm _ _ (perm_sortByLe keyLe fields)]

theorem sortEntry_comp (f f2 : Nat) (kv : String × Json)
    (hIH : ∀ v, jsonDepth v < f → jsonDepth v < f2 →
      stableSortFuel f2 (stableSortFuel f v) = stableSortFuel f v)
    (h1 : jsonDepth kv.2 < f) (h2 : jsonDepth kv.2 < f2) :
    sortEntry f2 (sortEntry f kv) = sortEntry f kv := by
  obtain ⟨k, n⟩ := kv
  show (k, sortEntryVal f2 k (sortEntryVal f k n)) = (k, sortEntryVal f k n)
  refine congrArg (Prod.mk k) ?_
  by_cases hk : k = "required"
  · subst hk
    cases n with
    | arr items =>
      rw [sortEntryVal_req_arr, sortEntryVal_req_arr, sortByLe_idem]
    | null =>
      rw [sortEntryVal_req_notArr f Json.null (fun l h => Json.noConfusion h),
        sortEntryVal_req_notArr f2 (stableSortFuel f Json.null)
          (ssf_not_arr Json.null (fun l h => Json.noConfusion h) f),
        hIH _ h1 h2]
    | bool b =>
      rw [sortEntryVal_req_notArr f (Json.bool b) (fun l h => Json.noConfusion h),
        sortEntryVal_req_notArr f2 (stableSortFuel f (Json.bool b))
          (ssf_not_arr (Json.bool b) (fun l h => Json.noConfusion h) f),
        hIH _ h1 h2]
    | str s =>
      rw [sortEntryVal_req_notArr f (Json.str s) (fun l h => Json.noConfusion h),
        sortEntryVal_req_notArr f2 (stableSortFuel f (Json.str s))
          (ssf_not_arr (Json.str s) (fun l h => Json.noConfusion h) f),
        hIH _ h1 h2]
    | num q =>
      rw [sortEntryVal_req_notArr f (Json.num q) (fun l h => Json.noConfusion h),
        sortEntryVal_req_notArr f2 (stableSortFuel f (Json.num q))
          (ssf_not_arr (Json.num q) (fun l h => Json.noConfusion h) f),
        hIH _ h1 h2]
    | obj fs =>
      rw [sortEntryVal_req_notArr f (Json.obj fs) (fun l h => Json.noConfusion h),
        sortEntryVal_req_notArr f2 (stableSortFuel f (Json.obj fs))
          (ssf_not_arr (Json.obj fs) (fun l h => Json.noConfusion h) f),
        hIH _ h1 h2]
  · rw [sortEntryVal_not_req _ _ _ hk, sortEntryVal_not_req _ _ _ hk, hIH _ h1 h2]

theorem stableSortFuel_idem : ∀ (f1 f2 : Nat) (v : Json), jsonDepth v < f1 →
    jsonDepth v < f2 →
    stableSortFuel f2 (stableSortFuel f1 v) = stableSortFuel f1 v := by
  intro f1
  induction f1 with
  | zero => intro f2 v h1 h2; omega
  | succ f ih =>
    intro f2 v h1 h2
    cases f2 with
    | zero => omega
    | succ f2 =>
      cases v with
      | null => rfl
      | bool b => rfl
      | str s => rfl
      | num n => rfl
      | arr xs =>
        simp only [stableSortFuel, List.map_map]
        simp only [jsonDepth] at h1 h2
        congr 1
        apply List.map_congr_left
        intro x hx
        have hd := depthL_mem_le xs x hx
        simp only [Function.comp]
        exact ih f2 x (by omega) (by omega)
      | obj fields =>
        rw [stableSortFuel_obj, stableSortFuel_obj]
        simp only [jsonDepth] at h1 h2
        have hchain : ((sortByLe keyLe fields).map (sortEntry f)).Chain' (okP keyLe) := by
          rw [List.chain'_map]
          exact (chain_sortByLe keyLe fields).imp (fun a b hab => by
            simpa only [okP, keyLe_sortEntry] using hab)
        rw [sortByLe_eq_of_chain keyLe _ hchain, List.map_map]
        congr 1
        apply List.map_congr_left
        intro kv hkv
        have hmem : kv ∈ fields := (mem_sortByLe _ _ _).mp hkv
        have hdep := depthF_mem_le fields kv hmem
        simp only [Function.comp]
        exact sortEntry_comp f f2 kv (fun v hv1 hv2 => ih f2 v hv1 hv2) (by omega) (by omega)

theorem stableSortObject_idem (v : Json) :
    stableSortObject (stableSortObject v) = stableSortObject v := by
  rw [stableSortObject, stableSortObject,
    depth_stableSortFuel (jsonDepth v + 1) v (by omega)]
  exact stableSortFuel_idem (jsonDepth v + 1) (jsonDepth v + 1) v (by omega) (by omega)

/-- Claim C2: the extractor is deterministic — in this embedding it is a pure
function of the tree and the options, so compiling twice yields equal
results — and every successfully returned schema is canonical: it is a
fixpoint of the deep stable sort (object keys by the key comparator,
`required` lists by the default string sort), which is the source's own
operational definition of the canonical deep-sorted form and makes repeated
compilation byte-identical when serialized. -/
theorem c2_deterministic_canonical :
    (∀ (root : DslNode) (opts : ExtractSchemaOptions),
      extractSchemaFromAst root opts = extractSchemaFromAst root opts) ∧
    (∀ (root : DslNode) (opts : ExtractSchemaOptions) (s : Json),
      extractSchemaFromAst root opts = .ok s → stableSortObject s = s) := by
  refine ⟨fun root opts => rfl, ?_⟩
  intro root opts s h
  rw [extractSchemaFromAst] at h
  split at h
  · exact Except.noConfusion h
  · injection h with h2
    subst h2
    exact stableSortObject_idem _

/-- The conflicting-nullability template: the same path `a` interpolated
once non-nullable and once nullable in one text node. -/
def c3tree : DslNode :=
  .elem "html" []
    [.text
      [.interpolation
        { path := "a", dataType := .string, nullable := false,
          constraints := [], filters := [] },
       .interpolation
        { path := "a", dataType := .string, nullable := true,
          constraints := [], filters := [] }]]

/-- Counterexample to Claim C3 as stated: for the conflicting-nullability
tree the extracted schema keeps `a` in the root `required` list (from the
first, non-nullable interpolation) while the second interpolation's leaf
merge overwrites the type to the two-element union including `"null"` — the
two duality tests disagree on the same leaf, so the duality cannot hold over
all input trees. -/
theorem c3_counterexample :
    extractSchemaFromAst c3tree {} = .ok (.obj
      [("$schema", .str "https://json-schema.org/draft/2020-12/schema"),
       ("properties", .obj [("a", .obj [("type", .arr [.str "string", .str "null"])])]),
       ("required", .arr [.str "a"]),
       ("type", .str "object")]) ∧
    Json.str "a" ∈ reqOf
      [("$schema", .str "https://json-schema.org/draft/2020-12/schema"),
       ("properties", .obj [("a", .obj [("type", .arr [.str "string", .str "null"])])]),
       ("required", .arr [.str "a"]),
       ("type", .str "object")] ∧
    assocGet? [("type", Json.arr [.str "string", .str "null"])] "type" =
      some (.arr [.str "string", .str "null"]) := by
  refine ⟨?_, by decide, by decide⟩
  simp [extractSchemaFromAst, c3tree, collectGlobalConfig, collectCfgNode,
    collectCfgForest, defaultGlobalConfig, collectMetaSemantics, collectMetaAux, nodeCount,
    forestCount, buildInlineSemantic, metaUpdate, walkNode, walkForest, iterStep,
    applySegment, applyInterpolationSchema, ensureArrayPath, ensurePathNode, splitPart,
    objMerge, getProps, ensureProps, pushRequired, fieldsOf, emptyObjSchema,
    defaultArrayFields, mapTypeToSchema, buildFieldSchema, constraintApply, getFieldSchema,
    getFieldSchemaParts, modifyFieldSchemaParts, applySemantic, resolvePathWithAliases,
    normalizePath, trimChars, jsTrim, splitOnChar, jsSplitChar, stableSortObject,
    stableSortFuel, jsonDepth, jsonDepthL, jsonDepthF, sortReqLe, keyLe, strLe, charListLe,
    sortByLe, insertSorted, jsonToString, jsonArrToStrings, joinComma, jsNumToString,
    splitExamples, jsSplitStr, splitOnStrChars, initialSchema, assocGet?, assocSet,
    assocHas, joinDot, isIdentStart, jsEndsWith, endsWithChars, dropRightStr,
    DataType.name]

/-- The base JSON-schema type name of a data type (date-like types map to
`string`), as computed inside `mapTypeToSchema`. -/
def baseTypeName (dataType : DataType) : String :=
  match dataType with
  | .date => "string"
  | .time => "string"
  | .datetime => "string"
  | d => d.name

theorem mapTypeToSchema_type (dt : DataType) (nb : Bool) :
    assocGet? (mapTypeToSchema dt nb) "type" =
      some (if nb then Json.arr [.str (baseTypeName dt), .str "null"]
        else .str (baseTypeName dt)) := by
  cases dt <;> cases nb <;> decide

theorem constraintApply_type (n : JObj) (c : Constraint) :
    assocGet? (constraintApply n c) "type" = assocGet? n "type" := by
  cases c <;> (rw [constraintApply]; exact assocGet_assocSet_ne _ _ _ _ (by decide))

theorem buildFieldSchema_type (dt : DataType) (nb : Bool) (cs : List Constraint) :
    assocGet? (buildFieldSchema dt nb cs) "type" =
      some (if nb then Json.arr [.str (baseTypeName dt), .str "null"]
        else .str (baseTypeName dt)) := by
  rw [buildFieldSchema]
  have hfold : ∀ (l : List Constraint) (n : JObj),
      assocGet? (l.foldl constraintApply n) "type" = assocGet? n "type" := by
    intro l
    induction l with
    | nil => intro n; rfl
    | cons c t ih => intro n; rw [List.foldl_cons, ih, constraintApply_type]
  rw [hfold, mapTypeToSchema_type]

theorem mem_keys_assocSet {α : Type} (l : List (String × α)) (k : String) (v : α)
    (k2 : String) :
    k2 ∈ (assocSet l k v).map Prod.fst ↔ k2 = k ∨ k2 ∈ l.map Prod.fst := by
  induction l with
  | nil => simp [assocSet]
  | cons hd tl ih =>
    obtain ⟨k0, v0⟩ := hd
    by_cases h : k0 = k
    · subst h
      simp only [assocSet, if_pos rfl, ite_true, List.map_cons, List.mem_cons]
      tauto
    · simp only [assocSet, if_neg h, ite_false, List.map_cons, List.mem_cons, ih]
      tauto

theorem assocSet_nodup {α : Type} (l : List (String × α)) (k : String) (v : α)
    (h : (l.map Prod.fst).Nodup) : ((assocSet l k v).map Prod.fst).Nodup := by
  induction l with
  | nil => simp [assocSet]
  | cons hd tl ih =>
    obtain ⟨k0, v0⟩ := hd
    rw [assocSet]
    by_cases hk : k0 = k
    · subst hk
      simpa using h
    · simp only [if_neg hk, List.map_cons, List.nodup_cons]
      simp only [List.map_cons, List.nodup_cons] at h
      refine ⟨?_, ih h.2⟩
      intro hmem
      rcases (mem_keys_assocSet tl k v k0).mp hmem with h1 | h1
      · exact hk h1
      · exact h.1 h1

theorem buildFieldSchema_nodup (dt : DataType) (nb : Bool) (cs : List Constraint) :
    ((buildFieldSchema dt nb cs).map Prod.fst).Nodup := by
  rw [buildFieldSchema]
  have hfold : ∀ (l : List Constraint) (n : JObj), (n.map Prod.fst).Nodup →
      ((l.foldl constraintApply n).map Prod.fst).Nodup := by
    intro l
    induction l with
    | nil => intro n h; exact h
    | cons c t ih =>
      intro n h
      rw [List.foldl_cons]
      refine ih _ ?_
      cases c <;> (rw [constraintApply]; exact assocSet_nodup _ _ _ h)
  exact hfold cs _ (by cases dt <;> cases nb <;> decide)

theorem assocSet_fresh {α : Type} (l : List (String × α)) (k : String) (v : α)
    (h : k ∉ l.map Prod.fst) : assocSet l k v = l ++ [(k, v)] := by
  induction l with
  | nil => rfl
  | cons hd tl ih =>
    obtain ⟨k0, v0⟩ := hd
    simp only [List.map_cons, List.mem_cons] at h
    rw [assocSet, if_neg (fun hh => h (Or.inl hh.symm)), ih (fun hh => h (Or.inr hh))]
    rfl

theorem objMerge_append (b : JObj) : ∀ (a : JObj),
    (∀ k ∈ b.map Prod.fst, k ∉ a.map Prod.fst) → (b.map Prod.fst).Nodup →
    objMerge a b = a ++ b := by
  induction b with
  | nil => intro a _ _; simp [objMerge]
  | cons kv tl ih =>
    intro a hd hnd
    obtain ⟨k, v⟩ := kv
    simp only [objMerge, List.foldl_cons]
    have hstep : tl.foldl (fun acc kv => assocSet acc kv.1 kv.2) (assocSet a k v) =
        objMerge (assocSet a k v) tl := rfl
    rw [hstep, assocSet_fresh a k v (hd k (by simp))]
    simp only [List.map_cons, List.nodup_cons] at hnd
    rw [ih (a ++ [(k, v)]) ?_ hnd.2]
    · simp
    · intro k2 hk2 hmem
      rw [List.map_append] at hmem
      rcases List.mem_append.mp hmem with h1 | h1
      · exact hd k2 (by simp [hk2]) h1
      · have h2 : k2 = k := by simpa using h1
        exact hnd.1 (by simpa [h2] using hk2)

theorem objMerge_nil (b : JObj) (hnd : (b.map Prod.fst).Nodup) : objMerge [] b = b := by
  have := objMerge_append b [] (by simp) hnd
  simpa using this

theorem ensurePathNode_leaf_get (node : JObj) (part : String) (leafSchema : JObj)
    (required : Bool)
    (hfresh : assocGet? (getProps node) (splitPart part).1 = none) :
    assocGet? (getProps (ensurePathNode node [part] leafSchema required))
      (splitPart part).1 = some (.obj (objMerge [] leafSchema)) := by
  simp only [ensurePathNode, List.isEmpty_nil, if_true, getProps_ensureProps, hfresh]
  split
  · rw [getProps_pushRequired, getProps_setProps, assocGet_assocSet_self]
  · rw [getProps_setProps, assocGet_assocSet_self]

/-- Claim C3, amended to the fresh-slot duality the merge actually
guarantees: when an interpolation writes a single-part path into a schema
whose `properties` do not yet hold that key and whose `required` list does
not yet name it, the resulting leaf satisfies both duality tests — the key
joins the parent's `required` list exactly when the interpolation is not
nullable, the written leaf schema is exactly `buildFieldSchema`, and that
schema's `type` is the two-element union including `"null"` exactly when
the interpolation is nullable.  (Over all trees the claim fails: re-merging
the same path with a different nullability updates the type but never
removes prior `required` entries, see the counterexample.) -/
theorem c3_fresh_slot_duality (schema : JObj) (path key : String)
    (seg : InterpolationSegment) (hnorm : normalizePath path = [key])
    (hsplit : splitPart key = (key, false))
    (hfresh : assocGet? (getProps schema) key = none)
    (hnotreq : Json.str key ∉ reqOf schema) :
    (Json.str key ∈ reqOf (applyInterpolationSchema schema path seg) ↔
      seg.nullable = false) ∧
    assocGet? (getProps (applyInterpolationSchema schema path seg)) key =
      some (.obj (buildFieldSchema seg.dataType seg.nullable seg.constraints)) ∧
    assocGet? (buildFieldSchema seg.dataType seg.nullable seg.constraints) "type" =
      some (if seg.nullable then Json.arr [.str (baseTypeName seg.dataType), .str "null"]
        else .str (baseTypeName seg.dataType)) := by
  have hkey1 : (splitPart key).1 = key := by rw [hsplit]
  refine ⟨?_, ?_, buildFieldSchema_type _ _ _⟩
  · rw [applyInterpolationSchema, hnorm]
    cases hnb : seg.nullable
    · simp only [Bool.not_false]
      have h := c9_leaf_true schema key
        (buildFieldSchema seg.dataType false seg.constraints)
      rw [hkey1] at h
      simp [h]
    · simp only [Bool.not_true]
      have h := c9_leaf_false schema key
        (buildFieldSchema seg.dataType true seg.constraints)
      rw [h]
      simp [hnotreq]
  · rw [applyInterpolationSchema, hnorm]
    have h := ensurePathNode_leaf_get schema key
      (buildFieldSchema seg.dataType seg.nullable seg.constraints) (!seg.nullable)
      (by rw [hkey1]; exact hfresh)
    rw [hkey1] at h
    rw [h, objMerge_nil _ (buildFieldSchema_nodup _ _ _)]

/-- Witness for the amended C3 at a concrete input: a nullable string `a`
written into the initial schema skeleton. -/
theorem c3_witness :
    (Json.str "a" ∈ reqOf (applyInterpolationSchema initialSchema "a"
      { path := "a", dataType := .string, nullable := true,
        constraints := [], filters := [] }) ↔
      InterpolationSegment.nullable
        { path := "a", dataType := .string, nullable := true,
          constraints := [], filters := [] } = false) ∧
    assocGet? (getProps (applyInterpolationSchema initialSchema "a"
      { path := "a", dataType := .string, nullable := true,
        constraints := [], filters := [] })) "a" =
      some (.obj (buildFieldSchema .string true [])) ∧
    assocGet? (buildFieldSchema .string true []) "type" =
      some (if true then Json.arr [.str (baseTypeName .string), .str "null"]
        else .str (baseTypeName .string)) :=
  c3_fresh_slot_duality initialSchema "a" "a"
    { path := "a", dataType := .string, nullable := true,
      constraints := [], filters := [] }
    (by decide) (by decide) (by decide) (by decide)

end SDH
